import Mathlib

/-!
Verification of the price extraction and normalization pipeline:
a shallow embedding of the JavaScript sources (priceParser.js, validator.js,
the Amazon/Walmart/Generic extractors and the scraper dispatcher) together
with theorems about the embedded definitions.
-/

namespace PriceScraper

mutual
/-- Model of a JavaScript value as it appears in this pipeline: candidate
fields, JSON.parse output and attribute values. Objects keep their key
insertion order; numbers are exact rationals (the decimal literals the
pipeline manipulates). -/
inductive JSVal where
  | undefV
  | jnull
  | bool (b : Bool)
  | num (q : ℚ)
  | str (s : String)
  | arr (elems : JArr)
  | obj (fields : JObj)

/-- The element list of a JavaScript array. -/
inductive JArr where
  | nil
  | cons (hd : JSVal) (tl : JArr)

/-- The ordered own-property list of a JavaScript object. -/
inductive JObj where
  | nil
  | cons (key : String) (val : JSVal) (tl : JObj)
end

/-- Build an array value from a Lean list. -/
def jarr : List JSVal → JArr
  | [] => .nil
  | x :: xs => .cons x (jarr xs)

/-- Build an object's property list from a Lean association list. -/
def jobj : List (String × JSVal) → JObj
  | [] => .nil
  | (k, v) :: rest => .cons k v (jobj rest)

/-- JavaScript truthiness: undefined, null, false, 0 and "" are falsy. -/
def truthy : JSVal → Bool
  | .undefV => false
  | .jnull => false
  | .bool b => b
  | .num q => q != 0
  | .str s => s ≠ ""
  | .arr _ => true
  | .obj _ => true

def JSVal.isString : JSVal → Bool
  | .str _ => true
  | _ => false

/-- `typeof v === 'object'` in JavaScript: true for null, arrays and plain
objects. -/
def typeofIsObject : JSVal → Bool
  | .jnull => true
  | .arr _ => true
  | .obj _ => true
  | _ => false

/-- Own-property lookup in an object's field list (parsed objects carry
unique keys; iteration order is the list order). Missing key reads as
undefined. -/
def jsGet (fields : JObj) (key : String) : JSVal :=
  match fields with
  | .nil => .undefV
  | .cons k v rest => if k = key then v else jsGet rest key

/-- Property access `base.key` for a base already known not to be
null/undefined: named keys read as undefined on primitives and arrays. -/
def propTotal (base : JSVal) (key : String) : JSVal :=
  match base with
  | .obj fields => jsGet fields key
  | _ => .undefV

/-- Property access `base.key` that, as in JavaScript, raises a TypeError on
a null or undefined base. -/
def jsGetProp (base : JSVal) (key : String) : Except Unit JSVal :=
  match base with
  | .undefV => .error ()
  | .jnull => .error ()
  | _ => .ok (propTotal base key)

/-- Optional chaining `base?.key`: undefined when the base is null or
undefined, plain access otherwise. -/
def optChain (base : JSVal) (key : String) : JSVal :=
  match base with
  | .undefV => .undefV
  | .jnull => .undefV
  | _ => propTotal base key

/-- The JavaScript `a || b` operator on values. -/
def jsOr (a b : JSVal) : JSVal :=
  if truthy a then a else b

/-- Strict equality `a === b` between the values this pipeline compares:
value equality on primitives; objects and arrays compare by reference, and
the candidates compared here always hold distinct references. -/
def jsStrictEq (a b : JSVal) : Bool :=
  match a, b with
  | .undefV, .undefV => true
  | .jnull, .jnull => true
  | .bool x, .bool y => x == y
  | .num x, .num y => x == y
  | .str x, .str y => x == y
  | _, _ => false

/-! ### Digits, decimal strings, and the numeric model of
`parseFloat` / `Number.prototype.toString` -/

/-- ASCII decimal digit test (the `\d` class of the source's regexes). -/
def isDig (c : Char) : Bool :=
  48 ≤ c.toNat && c.toNat ≤ 57

def isDigDot (c : Char) : Bool :=
  isDig c || c = '.'

def digitVal (c : Char) : ℕ :=
  c.toNat - 48

def digitChar : ℕ → Char
  | 0 => '0'
  | 1 => '1'
  | 2 => '2'
  | 3 => '3'
  | 4 => '4'
  | 5 => '5'
  | 6 => '6'
  | 7 => '7'
  | 8 => '8'
  | _ => '9'

/-- Most-significant-first decimal digits of a natural number, with explicit
fuel so that the definition is structural and evaluates inside the kernel. -/
def natToDigitsF : ℕ → ℕ → List Char
  | 0, _ => []
  | fuel + 1, n =>
      if n < 10 then [digitChar n]
      else natToDigitsF fuel (n / 10) ++ [digitChar (n % 10)]

def natToDigits (n : ℕ) : List Char :=
  natToDigitsF (n + 1) n

def natToStr (n : ℕ) : String :=
  String.mk (natToDigits n)

/-- Value of a most-significant-first digit list. -/
def readDigits (ds : List Char) : ℕ :=
  ds.foldl (fun a c => 10 * a + digitVal c) 0

/-- Left-pad a digit list with zeros to `k` characters. -/
def padZeros (k : ℕ) (ds : List Char) : List Char :=
  List.replicate (k - ds.length) '0' ++ ds

/-- Whitespace, for the source's `\s` class and `trim()`. -/
def isWs (c : Char) : Bool :=
  c = ' ' || c = '\t' || c = '\n' || c = '\r'

/-- The currency glyphs of `parsePrice`'s first `replace`. -/
def isGlyph (c : Char) : Bool :=
  c = '$' || c = '€' || c = '£' || c = '¥' || c = '₹'

/-- `replace(/[\$€£¥₹]/, '')`: remove the first currency glyph only. -/
def removeFirstGlyph : List Char → List Char
  | [] => []
  | c :: cs => if isGlyph c then cs else c :: removeFirstGlyph cs

/-- `trim()` on a character list. -/
def trimChars (cs : List Char) : List Char :=
  ((cs.dropWhile isWs).reverse.dropWhile isWs).reverse

/-- The cleaning chain of `parsePrice` (priceParser.js lines 16-23): drop one
currency glyph, drop all commas, drop all whitespace, trim, then keep only
digits and dots. -/
def cleanPrice (s : String) : String :=
  let step1 := removeFirstGlyph s.data
  let step2 := step1.filter (fun c => c ≠ ',')
  let step3 := step2.filter (fun c => !isWs c)
  let step4 := trimChars step3
  String.mk (step4.filter isDigDot)

/-- `parseFloat` restricted to the digit-and-dot strings the cleaning chain
produces: the longest prefix `digits [. digits]` with at least one digit,
NaN (none) otherwise. The value `intpart + fracpart / 10^k` is assembled
with `mkRat` so that it evaluates inside the kernel. -/
def parseFloatPrefix (s : String) : Option ℚ :=
  let intDs := s.data.takeWhile isDig
  let rest := s.data.dropWhile isDig
  match rest with
  | '.' :: r2 =>
      let fracDs := r2.takeWhile isDig
      if intDs.isEmpty && fracDs.isEmpty then none
      else some (mkRat (readDigits intDs * 10 ^ fracDs.length + readDigits fracDs) (10 ^ fracDs.length))
  | _ => if intDs.isEmpty then none else some (mkRat (readDigits intDs) 1)

/-- `Math.round(v * 100)`, i.e. `⌊v * 100 + 1/2⌋` (round half up), computed
on the reduced fraction: `v * 100 + 1/2 = (200 num + den) / (2 den)`, and
Euclidean division by the positive `2 den` is the floor. -/
def mathRound100 (v : ℚ) : ℤ :=
  (200 * v.num + (v.den : ℤ)).ediv (2 * (v.den : ℤ))

/-- `Math.round(price * 100) / 100`. -/
def round2 (v : ℚ) : ℚ :=
  mkRat (mathRound100 v) 100

/-- `parsePrice` on a string input (priceParser.js lines 10-33), after the
non-string guard. -/
def parsePriceStr (s : String) : Option ℚ :=
  if s = "" then none
  else
    match parseFloatPrefix (cleanPrice s) with
    | none => none
    | some price => if price ≤ 0 then none else some (round2 price)

/-- `parsePrice(priceString)`: null for falsy or non-string input, then the
clean-parse-validate-round chain. -/
def parsePrice (priceString : JSVal) : Option ℚ :=
  match priceString with
  | .str s => parsePriceStr s
  | _ => none

/-- Truthiness of a parsed price, as `if (price)` tests it: a number parsed
successfully and distinct from 0. -/
def optTruthy (o : Option ℚ) : Bool :=
  match o with
  | some q => q != 0
  | none => false

/-- `extractCurrency(priceString)` (priceParser.js lines 40-52). -/
def extractCurrency (priceString : JSVal) : String :=
  match priceString with
  | .str s =>
      if s = "" then "USD"
      else if s.data.contains '$' then "USD"
      else if s.data.contains '€' then "EUR"
      else if s.data.contains '£' then "GBP"
      else if s.data.contains '¥' then "JPY"
      else if s.data.contains '₹' then "INR"
      else "USD"
  | _ => "USD"

/-- Smallest exponent `k` (searched up to the fuel bound) with `q * 10^k`
integral, i.e. with the reduced denominator dividing `10^k`; every number
this pipeline prints has one. -/
def findK (q : ℚ) : ℕ → ℕ → Option ℕ
  | k, 0 => if 10 ^ k % q.den = 0 then some k else none
  | k, fuel + 1 => if 10 ^ k % q.den = 0 then some k else findK q (k + 1) fuel

/-- `Number.prototype.toString` on a nonnegative number with a terminating
decimal expansion: the shortest exact decimal, no trailing zeros. With
`den ∣ 10^k`, the integer `q * 10^k` is `num * (10^k / den)`. -/
def jsNumToStringNN (q : ℚ) : String :=
  match findK q 0 30 with
  | some k =>
      let v : ℕ := q.num.toNat * (10 ^ k / q.den)
      if k = 0 then natToStr v
      else String.mk (natToDigits (v / 10 ^ k) ++ '.' :: padZeros k (natToDigits (v % 10 ^ k)))
  | none => natToStr q.num.toNat ++ "/" ++ natToStr q.den

/-- `Number.prototype.toString` as this pipeline uses it; the mirrored
negative value is rebuilt with `mkRat` to stay kernel-evaluable. -/
def jsNumToString (q : ℚ) : String :=
  if q < 0 then "-" ++ jsNumToStringNN (mkRat (-q.num) q.den) else jsNumToStringNN q

mutual
/-- `String(value)` / `.toString()` as this pipeline calls it: arrays join
their members with commas (null and undefined joining as empty), objects
print "[object Object]". -/
def jsToString : JSVal → String
  | .undefV => "undefined"
  | .jnull => "null"
  | .bool b => if b then "true" else "false"
  | .num q => jsNumToString q
  | .str s => s
  | .arr elems => jsToStringArr elems
  | .obj _ => "[object Object]"

/-- Comma join of an array's members for `Array.prototype.toString`; null
and undefined members join as the empty string. -/
def jsToStringArr : JArr → String
  | .nil => ""
  | .cons hd tl =>
      let rendered :=
        match hd with
        | .undefV => ""
        | .jnull => ""
        | v => jsToString v
      match tl with
      | .nil => rendered
      | _ => rendered ++ "," ++ jsToStringArr tl
end

/-! ### The price normalizer (priceParser.js lines 59-79) -/

/-- The raw candidate bag destructured by `normalizePrice`: the fields
`price`, `salePrice`, `listPrice`, `currency`, each undefined when the call
site omits it. -/
structure Candidate where
  price : JSVal
  salePrice : JSVal
  listPrice : JSVal
  currency : JSVal

/-- The record `normalizePrice` builds: `originalPrice` and `salePrice` hold
`none` where the source stores null, `currency` holds whatever value the
`currency || extractCurrency(finalPrice)` expression produced. -/
structure NormalizedPrice where
  price : ℚ
  originalPrice : Option ℚ
  salePrice : Option ℚ
  currency : JSVal
  isOnSale : Bool

/-- `normalizePrice(priceData)`: resolve `salePrice || price || listPrice`,
parse it, reject null/zero, then assemble the record. Every call site in
the pipeline passes an object literal, so the `if (!priceData)` guard is
never taken and the input is modelled as a `Candidate`. -/
def normalizePrice (priceData : Candidate) : Option NormalizedPrice :=
  let finalPrice := jsOr (jsOr priceData.salePrice priceData.price) priceData.listPrice
  match parsePrice finalPrice with
  | none => none
  | some parsedPrice =>
      if parsedPrice = 0 then none
      else
        some
          { price := parsedPrice
            originalPrice :=
              if truthy priceData.listPrice then parsePrice priceData.listPrice
              else some parsedPrice
            salePrice :=
              if truthy priceData.salePrice then parsePrice priceData.salePrice
              else none
            currency :=
              if truthy priceData.currency then priceData.currency
              else .str (extractCurrency finalPrice)
            isOnSale := truthy priceData.salePrice && !jsStrictEq priceData.salePrice priceData.price }

/-! ### The validator and the out-of-stock gate (validator.js) -/

/-- `isValidPriceRange(price, minPrice, maxPrice)` (validator.js lines
12-18); the model's prices are always numbers, so the typeof/NaN guard
holds. -/
def isValidPriceRange (price minPrice maxPrice : ℚ) : Bool :=
  decide (minPrice ≤ price) && decide (price ≤ maxPrice)

/-- `{isValid, errors}` of `validatePriceData`. -/
structure ValidationResult where
  isValid : Bool
  errors : List String

/-- `validatePriceData(priceData)` (validator.js lines 41-66), on the
normalized record the dispatcher hands it (none models a null record). -/
def validatePriceData (priceData : Option NormalizedPrice) : ValidationResult :=
  match priceData with
  | none => { isValid := false, errors := ["Price data is null or undefined"] }
  | some pd =>
      let priceErrs : List String :=
        if pd.price = 0 then ["Price is missing or invalid"]
        else if !isValidPriceRange pd.price (mkRat 1 100) 1000000 then
          ["Price " ++ jsNumToString pd.price ++ " is outside valid range"]
        else []
      let currErrs : List String :=
        if !truthy pd.currency then ["Currency is missing (using default: USD)"] else []
      { isValid := priceErrs.isEmpty, errors := priceErrs ++ currErrs }

/-- ASCII lower-casing, enough for the case-insensitive phrase regexes. -/
def charLower (c : Char) : Char :=
  match c with
  | 'A' => 'a' | 'B' => 'b' | 'C' => 'c' | 'D' => 'd' | 'E' => 'e' | 'F' => 'f'
  | 'G' => 'g' | 'H' => 'h' | 'I' => 'i' | 'J' => 'j' | 'K' => 'k' | 'L' => 'l'
  | 'M' => 'm' | 'N' => 'n' | 'O' => 'o' | 'P' => 'p' | 'Q' => 'q' | 'R' => 'r'
  | 'S' => 's' | 'T' => 't' | 'U' => 'u' | 'V' => 'v' | 'W' => 'w' | 'X' => 'x'
  | 'Y' => 'y' | 'Z' => 'z' | other => other

/-- Case-insensitive containment of a literal phrase, the effect of each
`/phrase/i.test(html)` in `isOutOfStock`. -/
def isSubstr (needle : List Char) : List Char → Bool
  | [] => needle.isEmpty
  | c :: rest => needle.isPrefixOf (c :: rest) || isSubstr needle rest

def containsCI (hay phrase : String) : Bool :=
  isSubstr (phrase.data.map charLower) (hay.data.map charLower)

/-- The phrase list of `isOutOfStock` (validator.js lines 78-84). -/
def outOfStockIndicators : List String :=
  ["out of stock", "currently unavailable", "temporarily out of stock", "unavailable", "sold out"]

/-- `isOutOfStock` on a string document. -/
def isOutOfStockStr (html : String) : Bool :=
  outOfStockIndicators.any fun phrase => containsCI html phrase

/-- `isOutOfStock(html)` (validator.js lines 73-87): false on falsy or
non-string input, else the case-insensitive phrase scan. -/
def isOutOfStock (html : JSVal) : Bool :=
  match html with
  | .str s => if s = "" then false else isOutOfStockStr s
  | _ => false

/-! ### The document model

The extractors query the raw markup through cheerio selectors, regular
expressions and `JSON.parse`. The document model records the outcome of
each of those queries as a field: an `Option (Option JSVal)` holds
whether the regular expression matched and, if so, whether its capture
parsed as JSON; element fields hold the text the code reads off them. The
query machinery itself (cheerio, `String.match`) stays outside the model;
everything the extractors do with the query results is embedded. -/

def isUndef : JSVal → Bool
  | .undefV => true
  | _ => false

def isNull : JSVal → Bool
  | .jnull => true
  | _ => false

/-- Truthiness of `element.attr(...)`: undefined (none) and "" are falsy. -/
def strTruthy : Option String → Bool
  | some s => s ≠ ""
  | none => false

/-- An Amazon price element: the text of its `.a-offscreen` child (empty
when absent) and its own visible text. -/
structure AEl where
  offscreen : String
  text : String

/-- An element matched by the Amazon offer-block selectors, together with
its first `[data-a-strike="true"]` sibling when one exists. -/
structure AOffer where
  offscreen : String
  text : String
  strike : Option AEl

/-- The outcome of the three Walmart regex-and-parse probes over one text:
for each pattern, whether it matched and whether the capture parsed. -/
structure WmPat where
  state : Option (Option JSVal)
  product : Option (Option JSVal)
  pricing : Option (Option JSVal)

/-- An element matched by the Walmart price-display selectors: its text,
its `content` attribute, and the text of its first `[class*="was-price"]`
sibling when one exists. -/
structure WmDisp where
  text : String
  content : Option String
  wasText : Option String

/-- An element matched by the generic CSS selectors: its text and its
`data-price` attribute. -/
structure GElem where
  text : String
  dataPrice : Option String

/-- A fetched HTML document, seen through every query the three extractors
make of it. List fields follow the order of the corresponding selector or
element lists in the source; an entry of `none` is a selector with no
matching element. -/
structure Html where
  raw : String
  amzBuying : Option (Option JSVal)
  amzPriceToPay : Option (Option JSVal)
  amzOffer : Option (Option JSVal)
  jsonLdScripts : List (Option JSVal)
  amzPtpEls : List (Option AEl)
  amzOfferEls : List (List AOffer)
  amzCoreWhole : Option String
  amzCoreFrac : Option String
  wmHtml : WmPat
  wmScripts : List (Option WmPat)
  wmDisplayEls : List (Option WmDisp)
  ogAmount : Option String
  ogCurrency : Option String
  wmItemprop : Option String
  gEls : List (Option GElem)

/-! ### The Amazon extractor (the AmazonExtractor class) -/

namespace AmazonExtractor

/-- One iteration of the `jsonPatterns` loop (amazon extractor lines
49-68): on a parsed capture read `amount || price || value` and
`currency || 'USD'`, and when the amount is truthy the loop body returns
`normalizePrice(...)` even when that is null. A null or undefined parse
root makes the property reads throw; the catch continues the loop. -/
def patResult (pat : Option (Option JSVal)) : Option (Option NormalizedPrice) :=
  match pat with
  | some (some .jnull) => none
  | some (some .undefV) => none
  | some (some j) =>
      let amount := jsOr (jsOr (propTotal j "amount") (propTotal j "price")) (propTotal j "value")
      let currency := jsOr (propTotal j "currency") (.str "USD")
      if truthy amount then some (normalizePrice ⟨amount, .undefV, .undefV, currency⟩) else none
  | _ => none

/-- `data.find(d => d['@type'] === 'Product')`: first Product-typed element,
throwing when an element is null or undefined. -/
def findProduct : JArr → Except Unit (Option JSVal)
  | .nil => .ok none
  | .cons d rest =>
      match jsGetProp d "@type" with
      | .error e => .error e
      | .ok t => if jsStrictEq t (.str "Product") then .ok (some d) else findProduct rest

/-- The body of the JSON-LD loop (amazon extractor lines 72-94) on one
parsed script, in the exception monad: any throw is caught by the loop's
try and continues with the next script. -/
def jsonLdScriptE (data : JSVal) : Except Unit (Option (Option NormalizedPrice)) :=
  match jsGetProp data "@type" with
  | .error e => .error e
  | .ok t =>
      let c1 := jsStrictEq t (.str "Product")
      match
        (match c1, data with
         | false, .arr xs => findProduct xs
         | _, _ => .ok none : Except Unit (Option JSVal)) with
      | .error e => .error e
      | .ok found =>
          if c1 || found.isSome then
            let product :=
              match data with
              | .arr _ => found.getD .undefV
              | _ => data
            match jsGetProp product "offers" with
            | .error e => .error e
            | .ok offers =>
                if truthy offers then
                  let offers2 :=
                    match offers with
                    | .arr .nil => JSVal.undefV
                    | .arr (.cons hd _) => hd
                    | _ => offers
                  match jsGetProp offers2 "price" with
                  | .error e => .error e
                  | .ok price =>
                      if truthy price then
                        match jsGetProp offers2 "priceCurrency" with
                        | .error e => .error e
                        | .ok pcur =>
                            .ok (some (normalizePrice ⟨price, .undefV, .undefV, jsOr pcur (.str "USD")⟩))
                      else .ok none
                else .ok none
          else .ok none

/-- One JSON-LD script tag: missing content and parse failures continue the
loop, as do caught throws; a truthy `offers.price` returns the normalized
candidate, null or not. -/
def jsonLdScript (s : Option JSVal) : Option (Option NormalizedPrice) :=
  match s with
  | none => none
  | some data =>
      match jsonLdScriptE data with
      | .error _ => none
      | .ok r => r

/-- `extractFromJsonData($, html)`: the three regex probes in order, then
the JSON-LD Product scripts. -/
def extractFromJsonData (doc : Html) : Option NormalizedPrice :=
  match [doc.amzBuying, doc.amzPriceToPay, doc.amzOffer].findSome? patResult with
  | some r => r
  | none =>
      match doc.jsonLdScripts.findSome? jsonLdScript with
      | some r => r
      | none => none

/-- `element.find('.a-offscreen').text() || element.text()`. -/
def effText (offscreen text : String) : String :=
  if offscreen ≠ "" then offscreen else text

/-- One priceToPay selector (amazon extractor lines 109-119). -/
def ptpEl (el : Option AEl) : Option (Option NormalizedPrice) :=
  match el with
  | none => none
  | some e =>
      match parsePrice (.str (effText e.offscreen e.text)) with
      | some p =>
          if p = 0 then none
          else some (normalizePrice ⟨.str (jsNumToString p), .undefV, .undefV, .undefV⟩)
      | none => none

/-- `extractFromPriceToPay($)`. -/
def extractFromPriceToPay (doc : Html) : Option NormalizedPrice :=
  match doc.amzPtpEls.findSome? ptpEl with
  | some r => r
  | none => none

/-- One element of an offer-block selector (amazon extractor lines
137-156): a parsed price returns `normalizePrice` with the strike-through
sibling as `listPrice` (null when the sibling is absent or unparsed). -/
def offerEl (e : AOffer) : Option (Option NormalizedPrice) :=
  match parsePrice (.str (effText e.offscreen e.text)) with
  | some p =>
      if p = 0 then none
      else
        let listPrice :=
          match e.strike with
          | some st => parsePrice (.str (effText st.offscreen st.text))
          | none => none
        some (normalizePrice ⟨.str (jsNumToString p), .undefV,
          (match listPrice with
           | some lp => if lp = 0 then .jnull else .str (jsNumToString lp)
           | none => .jnull), .undefV⟩)
  | none => none

/-- `extractFromOffers($)`: the offer selectors in order, each element list
in document order. -/
def extractFromOffers (doc : Html) : Option NormalizedPrice :=
  match doc.amzOfferEls.findSome? (fun elems => elems.findSome? offerEl) with
  | some r => r
  | none => none

/-- `extractFromCorePrice($)` (amazon extractor lines 165-184): digits-only
whole and fraction parts joined with a dot, the fraction defaulting to
"00". -/
def extractFromCorePrice (doc : Html) : Option NormalizedPrice :=
  match doc.amzCoreWhole with
  | none => none
  | some wtext =>
      let whole := wtext.data.filter isDig
      let fraction :=
        match doc.amzCoreFrac with
        | some ftext => ftext.data.filter isDig
        | none => ['0', '0']
      if whole ≠ [] then
        match parsePrice (.str (String.mk (whole ++ '.' :: fraction))) with
        | some p =>
            if p = 0 then none
            else normalizePrice ⟨.str (jsNumToString p), .undefV, .undefV, .undefV⟩
        | none => none
      else none

/-- `AmazonExtractor.extract(html)`: the four methods in order, first
non-null result wins. -/
def extract (doc : Html) : Option NormalizedPrice :=
  match extractFromJsonData doc with
  | some r => some r
  | none =>
      match extractFromPriceToPay doc with
      | some r => some r
      | none =>
          match extractFromOffers doc with
          | some r => some r
          | none => extractFromCorePrice doc

end AmazonExtractor

/-! ### The Walmart extractor (the WalmartExtractor class) -/

namespace WalmartExtractor

/-- The `if (obj.price !== undefined)` block of `findPriceInState`
(walmart.js lines 88-101), in the exception monad: an object-typed price
resolves `current?.price || price.price` — a null price value makes that
access throw — and a truthy resolved price makes the block return
`normalizePrice` (null or not) with `price.was || wasPrice || listPrice`
as the list price; `.ok none` is falling through the block. -/
def wPriceStep (fs : JObj) : Except Unit (Option (Option NormalizedPrice)) :=
  let p0 := jsGet fs "price"
  if isUndef p0 then .ok none
  else if isNull p0 then .error ()
  else
    let priceV :=
      if typeofIsObject p0 then
        jsOr (optChain (propTotal p0 "current") "price") (propTotal p0 "price")
      else p0
    if truthy priceV then
      let currency := jsOr (jsGet fs "currency") (.str "USD")
      let listPrice :=
        jsOr (jsOr (propTotal p0 "was") (jsGet fs "wasPrice")) (jsGet fs "listPrice")
      .ok (some (normalizePrice ⟨.str (jsToString priceV), .undefV,
        (if truthy listPrice then .str (jsToString listPrice) else .jnull), currency⟩))
    else .ok none

/-- The `if (obj.pricing)` block (walmart.js lines 104-114): a truthy
`pricing.price || pricing.currentPrice` returns `normalizePrice` with
`pricing.wasPrice || pricing.rollbackPrice` as the list price; `none` is
falling through to the recursive descent. -/
def wPricingStep (fs : JObj) : Option (Option NormalizedPrice) :=
  let pr := jsGet fs "pricing"
  if truthy pr then
    let price := jsOr (propTotal pr "price") (propTotal pr "currentPrice")
    let listPrice := jsOr (propTotal pr "wasPrice") (propTotal pr "rollbackPrice")
    if truthy price then
      some (normalizePrice ⟨.str (jsToString price), .undefV,
        (if truthy listPrice then .str (jsToString listPrice) else .jnull), .undefV⟩)
    else none
  else none

mutual
/-- `findPriceInState(obj)` (walmart.js lines 84-125) in the exception
monad: non-object leaves return null; an object runs the price block, then
the pricing block, then descends into every object-typed property in
order. -/
def findPriceInState (j : JSVal) : Except Unit (Option NormalizedPrice) :=
  match j with
  | .obj fs =>
      match wPriceStep fs with
      | .error e => .error e
      | .ok (some r) => .ok r
      | .ok none =>
          match wPricingStep fs with
          | some r => .ok r
          | none => findInFields fs
  | .arr xs => findInElems xs
  | _ => .ok none

/-- The `for (const key in obj)` descent over an object's properties. -/
def findInFields : JObj → Except Unit (Option NormalizedPrice)
  | .nil => .ok none
  | .cons _ v rest =>
      if typeofIsObject v then
        match findPriceInState v with
        | .error e => .error e
        | .ok (some r) => .ok (some r)
        | .ok none => findInFields rest
      else findInFields rest

/-- The same descent over an array's elements. -/
def findInElems : JArr → Except Unit (Option NormalizedPrice)
  | .nil => .ok none
  | .cons v rest =>
      if typeofIsObject v then
        match findPriceInState v with
        | .error e => .error e
        | .ok (some r) => .ok (some r)
        | .ok none => findInElems rest
      else findInElems rest
end

/-- One regex-and-parse probe of `extractFromJsonState` (walmart.js lines
45-56): a match whose capture parses is searched; only a truthy (non-null)
search result is returned, and a thrown search is caught and continues. -/
def patProbe (p : Option (Option JSVal)) : Option NormalizedPrice :=
  match p with
  | some (some j) =>
      match findPriceInState j with
      | .ok (some r) => some r
      | _ => none
  | _ => none

/-- `extractFromJsonState($, html)`: the three patterns over the raw
markup, then every script tag body under the same patterns. -/
def extractFromJsonState (doc : Html) : Option NormalizedPrice :=
  match [doc.wmHtml.state, doc.wmHtml.product, doc.wmHtml.pricing].findSome? patProbe with
  | some r => some r
  | none =>
      doc.wmScripts.findSome? fun sc =>
        match sc with
        | none => none
        | some pats => [pats.state, pats.product, pats.pricing].findSome? patProbe

/-- One price-display selector (walmart.js lines 139-163): the element's
trimmed text or `content` attribute, parsed; a nonzero price returns
`normalizePrice` with the was-price sibling as `listPrice`. -/
def dispEl (el : Option WmDisp) : Option (Option NormalizedPrice) :=
  match el with
  | none => none
  | some e =>
      let trimmed := String.mk (trimChars e.text.data)
      let priceText : Option String := if trimmed ≠ "" then some trimmed else e.content
      match priceText with
      | some pt =>
          if pt ≠ "" then
            match parsePrice (.str pt) with
            | some p =>
                if p = 0 then none
                else
                  let wasPrice :=
                    match e.wasText with
                    | some wt => parsePrice (.str wt)
                    | none => none
                  some (normalizePrice ⟨.str (jsNumToString p), .undefV,
                    (match wasPrice with
                     | some w => if w = 0 then .jnull else .str (jsNumToString w)
                     | none => .jnull), .undefV⟩)
            | none => none
          else none
      | none => none

/-- `extractFromPriceDisplay($)`. -/
def extractFromPriceDisplay (doc : Html) : Option NormalizedPrice :=
  match doc.wmDisplayEls.findSome? dispEl with
  | some r => r
  | none => none

/-- `extractFromMetaTags($)` (walmart.js lines 171-188): Open Graph amount
with `currency || 'USD'`, else the `[itemprop="price"]` content. -/
def extractFromMetaTags (doc : Html) : Option NormalizedPrice :=
  if strTruthy doc.ogAmount then
    normalizePrice ⟨.str (doc.ogAmount.getD ""), .undefV, .undefV,
      (match doc.ogCurrency with
       | some c => if c ≠ "" then .str c else .str "USD"
       | none => .str "USD")⟩
  else if strTruthy doc.wmItemprop then
    normalizePrice ⟨.str (doc.wmItemprop.getD ""), .undefV, .undefV, .undefV⟩
  else none

/-- `WalmartExtractor.extract(html)`: the three methods in order. -/
def extract (doc : Html) : Option NormalizedPrice :=
  match extractFromJsonState doc with
  | some r => some r
  | none =>
      match extractFromPriceDisplay doc with
      | some r => some r
      | none => extractFromMetaTags doc

end WalmartExtractor

/-! ### The generic extractor (the GenericExtractor class) -/

namespace GenericExtractor

mutual
/-- `findPriceInJsonLd(obj)` (generic.js lines 61-84): non-object leaves
are dead ends; a node with a `price` property, or whose `offers` has one,
returns the raw candidate `{price: price || offers?.price, currency:
priceCurrency || offers?.priceCurrency}`; otherwise the search descends
into every object-typed property in order. -/
def findPriceInJsonLd (j : JSVal) : Option Candidate :=
  match j with
  | .obj fs =>
      let offers := jsGet fs "offers"
      let offersPrice := optChain offers "price"
      if !isUndef (jsGet fs "price") || !isUndef offersPrice then
        some ⟨jsOr (jsGet fs "price") offersPrice, .undefV, .undefV,
          jsOr (jsGet fs "priceCurrency") (optChain offers "priceCurrency")⟩
      else findLdFields fs
  | .arr xs => findLdElems xs
  | _ => none

/-- The `for (const key in obj)` descent over an object's properties. -/
def findLdFields : JObj → Option Candidate
  | .nil => none
  | .cons _ v rest =>
      if typeofIsObject v then
        match findPriceInJsonLd v with
        | some r => some r
        | none => findLdFields rest
      else findLdFields rest

/-- The same descent over an array's elements. -/
def findLdElems : JArr → Option Candidate
  | .nil => none
  | .cons v rest =>
      if typeofIsObject v then
        match findPriceInJsonLd v with
        | some r => some r
        | none => findLdElems rest
      else findLdElems rest
end

/-- One JSON-LD script (generic.js lines 40-53): a found candidate returns
`normalizePrice(price)` from the method, null or not; missing content and
parse failures continue. -/
def jsonLdScript (s : Option JSVal) : Option (Option NormalizedPrice) :=
  match s with
  | none => none
  | some data =>
      match findPriceInJsonLd data with
      | some cand => some (normalizePrice cand)
      | none => none

/-- `extractFromJsonLd($)`. -/
def extractFromJsonLd (doc : Html) : Option NormalizedPrice :=
  match doc.jsonLdScripts.findSome? jsonLdScript with
  | some r => r
  | none => none

/-- `extractFromOpenGraph($)` (generic.js lines 89-101). -/
def extractFromOpenGraph (doc : Html) : Option NormalizedPrice :=
  if strTruthy doc.ogAmount then
    normalizePrice ⟨.str (doc.ogAmount.getD ""), .undefV, .undefV,
      (match doc.ogCurrency with
       | some c => if c ≠ "" then .str c else .str "USD"
       | none => .str "USD")⟩
  else none

/-- One common CSS selector (generic.js lines 117-128): the first
element's trimmed text or `data-price` attribute, parsed; a nonzero price
returns `normalizePrice({price: price.toString()})`. -/
def cssEl (el : Option GElem) : Option (Option NormalizedPrice) :=
  match el with
  | none => none
  | some e =>
      let trimmed := String.mk (trimChars e.text.data)
      let priceText : Option String := if trimmed ≠ "" then some trimmed else e.dataPrice
      match priceText with
      | some pt =>
          if pt ≠ "" then
            match parsePrice (.str pt) with
            | some p =>
                if p = 0 then none
                else some (normalizePrice ⟨.str (jsNumToString p), .undefV, .undefV, .undefV⟩)
            | none => none
          else none
      | none => none

/-- `extractFromCommonSelectors($)`. -/
def extractFromCommonSelectors (doc : Html) : Option NormalizedPrice :=
  match doc.gEls.findSome? cssEl with
  | some r => r
  | none => none

/-- `GenericExtractor.extract(html)`: JSON-LD, Open Graph, then the common
selectors. -/
def extract (doc : Html) : Option NormalizedPrice :=
  match extractFromJsonLd doc with
  | some r => some r
  | none =>
      match extractFromOpenGraph doc with
      | some r => some r
      | none => extractFromCommonSelectors doc

end GenericExtractor

/-! ### The dispatcher and the result record (scraper.js) -/

/-- The vendor dispatch of `getPrice` (scraper.js lines 60-78): a
recognized vendor runs its own extractor only; anything else runs the
generic extractor and falls back to Amazon then Walmart. The surrounding
try/catch is dead in the model: the embedded extractors are total. -/
def dispatchExtract (vendor : String) (doc : Html) : Option NormalizedPrice :=
  if vendor = "amazon" then AmazonExtractor.extract doc
  else if vendor = "walmart" then WalmartExtractor.extract doc
  else
    match GenericExtractor.extract doc with
    | some r => some r
    | none =>
        match AmazonExtractor.extract doc with
        | some r => some r
        | none => WalmartExtractor.extract doc

/-- `errors.join(', ')`. -/
def joinComma : List String → String
  | [] => ""
  | [s] => s
  | s :: rest => s ++ ", " ++ joinComma rest

/-- The shape of `getPrice`'s result that the claims speak about:
availability, the error message, the spread price record on success, the
raw candidate on validation failure, and the warning list (empty models
the omitted `warnings`). The url, vendor and timestamp fields are passed
through unchanged and are not modelled. -/
structure ScrapeResult where
  available : Bool
  error : Option String
  priceData : Option NormalizedPrice
  rawPrice : Option NormalizedPrice
  warnings : List String

/-- The pure core of `getPrice(url, options)` (scraper.js lines 47-109),
after the fetch: the out-of-stock gate, the vendor dispatch, then
validation and result assembly. -/
def getPriceCore (vendor : String) (doc : Html) (allowOutOfStock : Bool) : ScrapeResult :=
  if isOutOfStock (.str doc.raw) && !allowOutOfStock then
    { available := false, error := some "Product appears to be out of stock",
      priceData := none, rawPrice := none, warnings := [] }
  else
    match dispatchExtract vendor doc with
    | none =>
        { available := false, error := some "Could not extract price from page",
          priceData := none, rawPrice := none, warnings := [] }
    | some priceData =>
        let validation := validatePriceData (some priceData)
        if !validation.isValid then
          { available := false,
            error := some ("Price validation failed: " ++ joinComma validation.errors),
            priceData := none, rawPrice := some priceData, warnings := [] }
        else
          { available := true, error := none, priceData := some priceData,
            rawPrice := none, warnings := validation.errors }

/-! ### The spec's description of the recursive JSON search

Modelled from the spec: the recursive search "treats non-object/non-array
leaves as dead ends, checks the current node for the target key(s) before
descending, descends into every property of a value that is itself an
object or array, and returns the first match found under the iteration
order of the object's own properties". `specNodes kc` lists, in that
traversal order, the nodes a search with node-level check `kc` would stop
at; a matched node's own subtree is not searched further. -/

mutual
/-- Match nodes of the spec's search, in traversal order. -/
def specNodes (kc : JSVal → Bool) : JSVal → List JSVal
  | .obj fs => if kc (.obj fs) then [.obj fs] else specNodesObj kc fs
  | .arr xs => if kc (.arr xs) then [.arr xs] else specNodesArr kc xs
  | _ => []

def specNodesObj (kc : JSVal → Bool) : JObj → List JSVal
  | .nil => []
  | .cons _ v rest => specNodes kc v ++ specNodesObj kc rest

def specNodesArr (kc : JSVal → Bool) : JArr → List JSVal
  | .nil => []
  | .cons v rest => specNodes kc v ++ specNodesArr kc rest
end

/-- The node-level check of the generic JSON-LD search: a `price` property,
or an `offers` with one. -/
def gKeyCheck : JSVal → Bool
  | .obj fs => !isUndef (jsGet fs "price") || !isUndef (optChain (jsGet fs "offers") "price")
  | _ => false

/-- The candidate the generic search reads off a matched node. -/
def gCandOf : JSVal → Candidate
  | .obj fs =>
      ⟨jsOr (jsGet fs "price") (optChain (jsGet fs "offers") "price"), .undefV, .undefV,
        jsOr (jsGet fs "priceCurrency") (optChain (jsGet fs "offers") "priceCurrency")⟩
  | _ => ⟨.undefV, .undefV, .undefV, .undefV⟩

/-- The Walmart search's resolved price at a node:
`typeof price === 'object' ? price.current?.price || price.price : price`,
read totally (the null-price throw is excluded by `noNullPrice`). -/
def wPriceResolved (fs : JObj) : JSVal :=
  let p0 := jsGet fs "price"
  if typeofIsObject p0 then jsOr (optChain (propTotal p0 "current") "price") (propTotal p0 "price")
  else p0

/-- The Walmart search matches through its `price` branch. -/
def wPriceMatch (fs : JObj) : Bool :=
  !isUndef (jsGet fs "price") && truthy (wPriceResolved fs)

/-- The Walmart search matches through its `pricing` branch. -/
def wPricingMatch (fs : JObj) : Bool :=
  let pr := jsGet fs "pricing"
  truthy pr && truthy (jsOr (propTotal pr "price") (propTotal pr "currentPrice"))

/-- The node-level check of the Walmart state search. -/
def wKeyCheck : JSVal → Bool
  | .obj fs => wPriceMatch fs || wPricingMatch fs
  | _ => false

/-- What the Walmart search returns at a matched node (null when the
normalization of the node's candidate fails). -/
def wNodeRes : JSVal → Option NormalizedPrice
  | .obj fs =>
      if wPriceMatch fs then
        let p0 := jsGet fs "price"
        let priceV := wPriceResolved fs
        let currency := jsOr (jsGet fs "currency") (.str "USD")
        let listPrice := jsOr (jsOr (propTotal p0 "was") (jsGet fs "wasPrice")) (jsGet fs "listPrice")
        normalizePrice ⟨.str (jsToString priceV), .undefV,
          (if truthy listPrice then .str (jsToString listPrice) else .jnull), currency⟩
      else if wPricingMatch fs then
        let pr := jsGet fs "pricing"
        let price := jsOr (propTotal pr "price") (propTotal pr "currentPrice")
        let listPrice := jsOr (propTotal pr "wasPrice") (propTotal pr "rollbackPrice")
        normalizePrice ⟨.str (jsToString price), .undefV,
          (if truthy listPrice then .str (jsToString listPrice) else .jnull), .undefV⟩
      else none
  | _ => none

mutual
/-- No object node of the value carries a null `price` property — the
JSON shape on which the Walmart search cannot throw. -/
def noNullPrice : JSVal → Bool
  | .obj fs => !isNull (jsGet fs "price") && noNullPriceObj fs
  | .arr xs => noNullPriceArr xs
  | _ => true

def noNullPriceObj : JObj → Bool
  | .nil => true
  | .cons _ v rest => noNullPrice v && noNullPriceObj rest

def noNullPriceArr : JArr → Bool
  | .nil => true
  | .cons v rest => noNullPrice v && noNullPriceArr rest
end

/-! ### Concrete inputs used by the claims -/

/-- A document on which every query comes back empty. -/
def emptyHtml : Html :=
  { raw := "product page"
    amzBuying := none, amzPriceToPay := none, amzOffer := none
    jsonLdScripts := [], amzPtpEls := [], amzOfferEls := []
    amzCoreWhole := none, amzCoreFrac := none
    wmHtml := { state := none, product := none, pricing := none }
    wmScripts := [], wmDisplayEls := []
    ogAmount := none, ogCurrency := none, wmItemprop := none, gEls := [] }

/-- A document with only Walmart-style price markers: the Walmart state
regex matches and its capture parses to `{"price": "29.99"}`; every
Amazon-facing and generic-facing query is empty. -/
def wmOnlyDoc : Html :=
  { emptyHtml with
    raw := "walmart style price page"
    wmHtml := { state := some (some (.obj (.cons "price" (.str "29.99") .nil)))
                product := none, pricing := none } }

/-- A document matching only an Amazon-style embedded price: the
`"buyingPrice"` regex matches and parses to `{"amount": "39.99"}`. -/
def amzOnlyDoc : Html :=
  { emptyHtml with
    raw := "amazon style price page"
    amzBuying := some (some (.obj (.cons "amount" (.str "39.99") .nil))) }

/-- The amzOnlyDoc document with out-of-stock wording in its markup. -/
def oosDoc : Html :=
  { amzOnlyDoc with raw := "Currently Unavailable - amazon style price page" }

/-- The record the Walmart state search extracts from `wmOnlyDoc`. -/
def wmOnlyRec : NormalizedPrice :=
  ⟨mkRat 2999 100, some (mkRat 2999 100), none, .str "USD", false⟩

/-- The record the Amazon pattern probe extracts from `amzOnlyDoc`. -/
def amzOnlyRec : NormalizedPrice :=
  ⟨mkRat 3999 100, some (mkRat 3999 100), none, .str "USD", false⟩

/-- The candidate of claim C1: `{price: "39.99", salePrice: "29.99"}`. -/
def c1cand : Candidate :=
  ⟨.str "39.99", .str "29.99", .undefV, .undefV⟩

/-- What `normalizePrice` actually returns on `c1cand`. -/
def c1out : NormalizedPrice :=
  ⟨mkRat 2999 100, some (mkRat 2999 100), some (mkRat 2999 100), .str "USD", true⟩

/-- A candidate whose `listPrice` is present but unparseable. -/
def c2cand : Candidate :=
  ⟨.str "10.00", .undefV, .str "invalid", .undefV⟩

/-- A candidate whose `salePrice` is present (the number 0) but falsy. -/
def c6cand : Candidate :=
  ⟨.str "29.99", .num 0, .undefV, .undefV⟩

/-- The JSON value `{"a": {"price": null}, "b": {"price": "5.00"}}` on
which the Walmart search throws before reaching the match under `b`. -/
def c10cex : JSVal :=
  .obj (.cons "a" (.obj (.cons "price" .jnull .nil))
    (.cons "b" (.obj (.cons "price" (.str "5.00") .nil)) .nil))

/-- A JSON value free of null prices, with the match nested under `b`. -/
def c10ok : JSVal :=
  .obj (.cons "a" (.obj (.cons "x" (.num 1) .nil))
    (.cons "b" (.obj (.cons "price" (.str "5.00") .nil)) .nil))

/-! ### Lemmas about the parser and the normalizer -/

theorem round2_nonneg (v : ℚ) (h : 0 ≤ v) : 0 ≤ round2 v := by
  have h1 : (0 : ℤ) ≤ 200 * v.num + (v.den : ℤ) := by
    have hn : (0 : ℤ) ≤ v.num := Rat.num_nonneg.mpr h
    have hd : (0 : ℤ) < (v.den : ℤ) := by exact_mod_cast v.den_pos
    omega
  have h2 : (0 : ℤ) ≤ 2 * (v.den : ℤ) := by
    have hd : (0 : ℤ) < (v.den : ℤ) := by exact_mod_cast v.den_pos
    omega
  have h3 : (0 : ℤ) ≤ mathRound100 v := Int.ediv_nonneg h1 h2
  unfold round2
  rw [Rat.mkRat_eq_div]
  exact div_nonneg (by exact_mod_cast h3) (by norm_num)

theorem parsePriceStr_shape (s : String) (q : ℚ) (h : parsePriceStr s = some q) :
    ∃ v, parseFloatPrefix (cleanPrice s) = some v ∧ 0 < v ∧ q = round2 v := by
  unfold parsePriceStr at h
  by_cases hs : s = ""
  · simp [hs] at h
  · simp only [hs, if_false] at h
    rcases hfp : parseFloatPrefix (cleanPrice s) with _ | v
    · rw [hfp] at h; exact absurd h (by simp)
    · rw [hfp] at h
      by_cases hv : v ≤ 0
      · simp [hv] at h
      · refine ⟨v, rfl, lt_of_not_le hv, ?_⟩
        simp [hv] at h
        exact h.symm

theorem parsePrice_nonneg (v : JSVal) (q : ℚ) (h : parsePrice v = some q) : 0 ≤ q := by
  cases v <;> simp [parsePrice] at h
  case str s =>
    obtain ⟨w, _, hw, rfl⟩ := parsePriceStr_shape s q h
    exact round2_nonneg w (le_of_lt hw)

theorem parsePrice_non_string (v : JSVal) (h : v.isString = false) : parsePrice v = none := by
  cases v <;> simp_all [parsePrice, JSVal.isString]

/-- Anatomy of a successful normalization: the parsed resolved price is
nonzero and every output field is what priceParser.js lines 72-78 assign. -/
theorem normalizePrice_eq_some (cand : Candidate) (r : NormalizedPrice)
    (h : normalizePrice cand = some r) :
    ∃ p, parsePrice (jsOr (jsOr cand.salePrice cand.price) cand.listPrice) = some p ∧ p ≠ 0 ∧
      r = ⟨p,
        (if truthy cand.listPrice then parsePrice cand.listPrice else some p),
        (if truthy cand.salePrice then parsePrice cand.salePrice else none),
        (if truthy cand.currency then cand.currency
         else .str (extractCurrency (jsOr (jsOr cand.salePrice cand.price) cand.listPrice))),
        truthy cand.salePrice && !jsStrictEq cand.salePrice cand.price⟩ := by
  simp only [normalizePrice] at h
  rcases hp : parsePrice (jsOr (jsOr cand.salePrice cand.price) cand.listPrice) with _ | p
  · rw [hp] at h; exact absurd h (by simp)
  · rw [hp] at h
    by_cases h0 : p = 0
    · simp [h0] at h
    · simp only [h0, if_false, Option.some.injEq] at h
      exact ⟨p, rfl, h0, h.symm⟩

/-! ### Claim C1 -/

/-- C1, as stated, is false: on `{price: "39.99", salePrice: "29.99"}` the
normalizer returns `originalPrice = 29.99`, not `39.99` — `originalPrice`
mirrors only `listPrice`, which is absent here, so it equals the resolved
price 29.99. -/
theorem c1_counterexample :
    normalizePrice c1cand = some c1out ∧ c1out.originalPrice = some (mkRat 2999 100) ∧
      mkRat 2999 100 ≠ mkRat 3999 100 :=
  ⟨rfl, rfl, by decide⟩

/-- C1 (amended): `normalize({price: "39.99", salePrice: "29.99"})` returns
`isOnSale = true`, `price = 29.99` and `originalPrice = 29.99` (the
resolved price, since no `listPrice` was supplied), with
`salePrice = 29.99` and currency USD. -/
theorem c1_theorem : normalizePrice c1cand = some c1out := rfl

/-! ### Claim C2 -/

/-- C2, as stated, is false for a candidate whose `listPrice` is present
but unparseable: `normalize({price: "10.00", listPrice: "invalid"})`
returns a record whose `originalPrice` is null — not a decimal `≥ 0` and
not the resolved price. -/
theorem c2_counterexample :
    normalizePrice c2cand = some ⟨10, none, none, .str "USD", false⟩ ∧
      (normalizePrice c2cand).bind NormalizedPrice.originalPrice = none :=
  ⟨rfl, rfl⟩

/-- C2 (amended): every non-NONE record satisfies `price > 0` and
`isOnSale` implies the output `salePrice` is present; `originalPrice` is
`≥ 0` whenever it is present, and equals the resolved price whenever the
candidate's `listPrice` is falsy — but when `listPrice` is truthy and
unparseable, `originalPrice` is null rather than a number. -/
theorem c2_theorem (cand : Candidate) (r : NormalizedPrice)
    (h : normalizePrice cand = some r) :
    0 < r.price ∧ (r.isOnSale = true → r.salePrice.isSome = true) ∧
      ((r.originalPrice.all fun q => decide (0 ≤ q)) = true) ∧
      (truthy cand.listPrice = false → r.originalPrice = some r.price) := by
  obtain ⟨p, hp, hp0, rfl⟩ := normalizePrice_eq_some cand r h
  have hpn : 0 ≤ p := parsePrice_nonneg _ p hp
  refine ⟨lt_of_le_of_ne hpn (Ne.symm hp0), ?_, ?_, ?_⟩
  · intro hsale
    have hsp : truthy cand.salePrice = true := by
      by_contra hc
      simp only [Bool.not_eq_true] at hc
      simp [hc] at hsale
    have hfinal : jsOr (jsOr cand.salePrice cand.price) cand.listPrice = cand.salePrice := by
      simp [jsOr, hsp]
    rw [hfinal] at hp
    simp [hsp, hp]
  · rcases hlp : truthy cand.listPrice with _ | _
    · simp [hlp, hpn]
    · simp only [hlp, if_true]
      rcases hq : parsePrice cand.listPrice with _ | q
      · simp
      · simp [parsePrice_nonneg _ q hq]
  · intro hlp
    simp [hlp]

/-- Instantiation of the amended C2 on the candidate of C1. -/
theorem c2_witness :
    0 < c1out.price ∧ (c1out.originalPrice.all fun q => decide (0 ≤ q)) = true :=
  ⟨(c2_theorem c1cand c1out rfl).1, (c2_theorem c1cand c1out rfl).2.2.1⟩

/-! ### Claim C6 -/

/-- C6, as stated, is false: `{price: "29.99", salePrice: 0}` supplies a
non-string numeric `salePrice`, which under the claim's resolution order
is the winning field, yet normalization succeeds — the `||` chain skips
the falsy 0 and resolves to the string `"29.99"`. -/
theorem c6_counterexample :
    JSVal.isString (.num 0) = false ∧
      normalizePrice c6cand = some ⟨mkRat 2999 100, some (mkRat 2999 100), none, .str "USD", false⟩ :=
  ⟨rfl, rfl⟩

/-- C6 (amended): the winning field is resolved by JavaScript truthiness,
`salePrice || price || listPrice`; whenever that resolved value is not a
string — in particular when it is a JSON number — `normalize` returns
NONE, because `parsePrice` rejects every non-string input. -/
theorem c6_theorem (cand : Candidate)
    (h : (jsOr (jsOr cand.salePrice cand.price) cand.listPrice).isString = false) :
    normalizePrice cand = none := by
  simp only [normalizePrice]
  rw [parsePrice_non_string _ h]

/-- Instantiation of the amended C6: a candidate whose `price` is the JSON
number 29.99 normalizes to NONE. -/
theorem c6_witness :
    (jsOr (jsOr JSVal.undefV (.num (mkRat 2999 100))) .undefV).isString = false ∧
      normalizePrice ⟨.num (mkRat 2999 100), .undefV, .undefV, .undefV⟩ = none :=
  ⟨rfl, c6_theorem ⟨.num (mkRat 2999 100), .undefV, .undefV, .undefV⟩ rfl⟩

/-! ### Claim C3 -/

/-- C3: for the recognized vendor tags the dispatcher runs exactly that
vendor's strategy — the result coincides with the lone extractor on every
document, so no fallback can occur — and on a document bearing only
Walmart-style markers (which Walmart's own strategy does extract) the
amazon-tagged dispatch finds nothing and `getPrice` reports
`available = false` with the no-candidate error. -/
theorem c3_theorem :
    (∀ doc, dispatchExtract "amazon" doc = AmazonExtractor.extract doc) ∧
      (∀ doc, dispatchExtract "walmart" doc = WalmartExtractor.extract doc) ∧
      AmazonExtractor.extract wmOnlyDoc = none ∧
      WalmartExtractor.extract wmOnlyDoc = some wmOnlyRec ∧
      getPriceCore "amazon" wmOnlyDoc false =
        { available := false, error := some "Could not extract price from page",
          priceData := none, rawPrice := none, warnings := [] } :=
  ⟨fun _ => rfl, fun _ => rfl, rfl, rfl, rfl⟩

/-! ### Claim C4 -/

/-- C4: every unrecognized vendor tag dispatches to the Generic strategy
first; a NONE there falls back to Amazon and then Walmart, the first
success winning — and a document matching only an Amazon-style embedded
price indeed succeeds through the chain under the tag "target". -/
theorem c4_theorem :
    (∀ vendor doc, vendor ≠ "amazon" → vendor ≠ "walmart" →
      ((∀ r, GenericExtractor.extract doc = some r → dispatchExtract vendor doc = some r) ∧
        (GenericExtractor.extract doc = none →
          ∀ r, AmazonExtractor.extract doc = some r → dispatchExtract vendor doc = some r) ∧
        (GenericExtractor.extract doc = none → AmazonExtractor.extract doc = none →
          dispatchExtract vendor doc = WalmartExtractor.extract doc))) ∧
      GenericExtractor.extract amzOnlyDoc = none ∧
      AmazonExtractor.extract amzOnlyDoc = some amzOnlyRec ∧
      dispatchExtract "target" amzOnlyDoc = some amzOnlyRec := by
  refine ⟨?_, rfl, rfl, rfl⟩
  intro vendor doc h1 h2
  refine ⟨?_, ?_, ?_⟩
  · intro r hg
    simp [dispatchExtract, h1, h2, hg]
  · intro hg r ha
    simp [dispatchExtract, h1, h2, hg, ha]
  · intro hg ha
    simp [dispatchExtract, h1, h2, hg, ha]

/-- Instantiation of C4's fallback chain for the tag "bestbuy". -/
theorem c4_witness : dispatchExtract "bestbuy" amzOnlyDoc = some amzOnlyRec :=
  (c4_theorem.1 "bestbuy" amzOnlyDoc (by decide) (by decide)).2.1 rfl amzOnlyRec rfl

/-! ### Claim C9 -/

/-- C9: out-of-stock wording (one of the five phrases, case-insensitively)
short-circuits `getPrice` before any extraction — for every document with
such wording, whatever its extractors would find, the result is
`available = false` with the out-of-stock error when `allowOutOfStock` is
not set; that error differs from the no-candidate error; and
`isOutOfStock` is false on every non-string input. -/
theorem c9_theorem :
    (∀ vendor doc, isOutOfStockStr doc.raw = true →
      getPriceCore vendor doc false =
        { available := false, error := some "Product appears to be out of stock",
          priceData := none, rawPrice := none, warnings := [] }) ∧
      ("Product appears to be out of stock" ≠ "Could not extract price from page") ∧
      (∀ v : JSVal, v.isString = false → isOutOfStock v = false) := by
  refine ⟨?_, by decide, ?_⟩
  · intro vendor doc h
    have hraw : doc.raw ≠ "" := by
      intro he
      rw [he] at h
      exact absurd h (by decide)
    simp [getPriceCore, isOutOfStock, hraw, h]
  · intro v hv
    cases v <;> simp_all [isOutOfStock, JSVal.isString]

/-- Instantiation of C9 on a document whose markers would let the Amazon
extractor succeed: the gate still reports out of stock. -/
theorem c9_witness :
    isOutOfStockStr oosDoc.raw = true ∧
      getPriceCore "amazon" oosDoc false =
        { available := false, error := some "Product appears to be out of stock",
          priceData := none, rawPrice := none, warnings := [] } :=
  ⟨by decide, c9_theorem.1 "amazon" oosDoc (by decide)⟩

/-! ### Lemmas for claim C5: no extraction method supplies a sale price -/

/-- A record that carries no sale information. -/
def SaleFree (r : NormalizedPrice) : Prop :=
  r.isOnSale = false ∧ r.salePrice = none

theorem saleFree_of_normalize (cand : Candidate) (hs : cand.salePrice = .undefV)
    (r : NormalizedPrice) (h : normalizePrice cand = some r) : SaleFree r := by
  obtain ⟨p, _, _, rfl⟩ := normalizePrice_eq_some cand r h
  constructor <;> simp [hs, truthy]

theorem patResult_saleFree (pat : Option (Option JSVal)) (r : NormalizedPrice)
    (h : AmazonExtractor.patResult pat = some (some r)) : SaleFree r := by
  simp only [AmazonExtractor.patResult] at h
  repeat' split at h
  all_goals first
    | exact Option.noConfusion h
    | exact Except.noConfusion h
    | exact Option.noConfusion (Except.ok.inj h)
    | (simp only [Except.ok.injEq, Option.some.injEq] at h
       refine saleFree_of_normalize _ ?_ r h
       rfl)

theorem jsonLdScriptE_saleFree (data : JSVal) (r : NormalizedPrice)
    (h : AmazonExtractor.jsonLdScriptE data = .ok (some (some r))) : SaleFree r := by
  simp only [AmazonExtractor.jsonLdScriptE] at h
  repeat' split at h
  all_goals first
    | exact Option.noConfusion h
    | exact Except.noConfusion h
    | exact Option.noConfusion (Except.ok.inj h)
    | (simp only [Except.ok.injEq, Option.some.injEq] at h
       refine saleFree_of_normalize _ ?_ r h
       rfl)

theorem wPriceStep_saleFree (fs : JObj) (r : NormalizedPrice)
    (h : WalmartExtractor.wPriceStep fs = .ok (some (some r))) : SaleFree r := by
  simp only [WalmartExtractor.wPriceStep] at h
  repeat' split at h
  all_goals first
    | exact Option.noConfusion h
    | exact Except.noConfusion h
    | exact Option.noConfusion (Except.ok.inj h)
    | (simp only [Except.ok.injEq, Option.some.injEq] at h
       refine saleFree_of_normalize _ ?_ r h
       rfl)

theorem wPricingStep_saleFree (fs : JObj) (r : NormalizedPrice)
    (h : WalmartExtractor.wPricingStep fs = some (some r)) : SaleFree r := by
  simp only [WalmartExtractor.wPricingStep] at h
  repeat' split at h
  all_goals first
    | exact Option.noConfusion h
    | (simp only [Option.some.injEq] at h
       refine saleFree_of_normalize _ ?_ r h
       rfl)

theorem wFind_saleFree (j : JSVal) :
    ∀ r, WalmartExtractor.findPriceInState j = .ok (some r) → SaleFree r := by
  induction j using WalmartExtractor.findPriceInState.induct
    (motive_2 := fun xs => ∀ r, WalmartExtractor.findInElems xs = .ok (some r) → SaleFree r)
    (motive_3 := fun fs => ∀ r, WalmartExtractor.findInFields fs = .ok (some r) → SaleFree r)
  case case1 =>
    intro r h
    rename_i fs e hps
    simp only [WalmartExtractor.findPriceInState, hps] at h
    exact Except.noConfusion h
  case case2 =>
    intro r h
    rename_i fs r0 hps
    simp only [WalmartExtractor.findPriceInState, hps, Except.ok.injEq] at h
    rw [h] at hps
    exact wPriceStep_saleFree fs r hps
  case case3 =>
    intro r h
    rename_i fs hps r0 hqs
    simp only [WalmartExtractor.findPriceInState, hps, hqs, Except.ok.injEq] at h
    rw [h] at hqs
    exact wPricingStep_saleFree fs r hqs
  case case4 =>
    intro r h
    rename_i fs hps hqs ih
    simp only [WalmartExtractor.findPriceInState, hps, hqs] at h
    exact ih r h
  case case5 =>
    intro r h
    rename_i xs ih
    simp only [WalmartExtractor.findPriceInState] at h
    exact ih r h
  case case6 =>
    intro r h
    rename_i t hobj harr
    cases t
    case obj fs => exact (hobj fs rfl).elim
    case arr xs => exact (harr xs rfl).elim
    all_goals exact Option.noConfusion (Except.ok.inj h)
  case case7 =>
    rename_i r a
    exact Option.noConfusion (Except.ok.inj a)
  case case8 =>
    rename_i hd tl hobj e hrec ih r a
    simp only [WalmartExtractor.findInElems, hobj, if_true, hrec] at a
    exact Except.noConfusion a
  case case9 =>
    rename_i hd tl hobj r1 hrec ih r a
    simp only [WalmartExtractor.findInElems, hobj, if_true, hrec, Except.ok.injEq, Option.some.injEq] at a
    exact a ▸ ih r1 hrec
  case case10 =>
    rename_i hd tl hobj hrec ih2 ih r a
    simp only [WalmartExtractor.findInElems, hobj, if_true, hrec] at a
    exact ih r a
  case case11 =>
    rename_i hd tl hobj ih r a
    simp only [WalmartExtractor.findInElems, hobj, if_false] at a
    exact ih r a
  case case12 =>
    rename_i r a
    exact Option.noConfusion (Except.ok.inj a)
  case case13 =>
    rename_i k v rest hobj e hrec ih r a
    simp only [WalmartExtractor.findInFields, hobj, if_true, hrec] at a
    exact Except.noConfusion a
  case case14 =>
    rename_i k v rest hobj r1 hrec ih r a
    simp only [WalmartExtractor.findInFields, hobj, if_true, hrec, Except.ok.injEq, Option.some.injEq] at a
    exact a ▸ ih r1 hrec
  case case15 =>
    rename_i k v rest hobj hrec ih2 ih r a
    simp only [WalmartExtractor.findInFields, hobj, if_true, hrec] at a
    exact ih r a
  case case16 =>
    rename_i k v rest hobj ih r a
    simp only [WalmartExtractor.findInFields, hobj, if_false] at a
    exact ih r a

theorem gFind_cand (j : JSVal) :
    ∀ cand, GenericExtractor.findPriceInJsonLd j = some cand → cand.salePrice = .undefV := by
  induction j using GenericExtractor.findPriceInJsonLd.induct
    (motive_2 := fun xs => ∀ cand, GenericExtractor.findLdElems xs = some cand → cand.salePrice = .undefV)
    (motive_3 := fun fs => ∀ cand, GenericExtractor.findLdFields fs = some cand → cand.salePrice = .undefV)
  case case1 =>
    intro cand h
    rename_i fs hkc
    simp only [GenericExtractor.findPriceInJsonLd, hkc, if_true, Option.some.injEq] at h
    rw [← h]
  case case2 =>
    intro cand h
    rename_i fs hkc ih
    simp only [GenericExtractor.findPriceInJsonLd, hkc, if_false] at h
    exact ih cand h
  case case3 =>
    intro cand h
    rename_i xs ih
    simp only [GenericExtractor.findPriceInJsonLd] at h
    exact ih cand h
  case case4 =>
    intro cand h
    rename_i t hobj harr
    cases t
    case obj fs => exact (hobj fs rfl).elim
    case arr xs => exact (harr xs rfl).elim
    all_goals exact Option.noConfusion h
  case case5 =>
    rename_i cand a
    exact Option.noConfusion a
  case case6 =>
    rename_i hd tl hobj r1 hrec ih cand a
    simp only [GenericExtractor.findLdElems, hobj, if_true, hrec, Option.some.injEq] at a
    exact a ▸ ih r1 hrec
  case case7 =>
    rename_i hd tl hobj hrec ih2 ih cand a
    simp only [GenericExtractor.findLdElems, hobj, if_true, hrec] at a
    exact ih cand a
  case case8 =>
    rename_i hd tl hobj ih cand a
    simp only [GenericExtractor.findLdElems, hobj, if_false] at a
    exact ih cand a
  case case9 =>
    rename_i cand a
    exact Option.noConfusion a
  case case10 =>
    rename_i k v rest hobj r1 hrec ih cand a
    simp only [GenericExtractor.findLdFields, hobj, if_true, hrec, Option.some.injEq] at a
    exact a ▸ ih r1 hrec
  case case11 =>
    rename_i k v rest hobj hrec ih2 ih cand a
    simp only [GenericExtractor.findLdFields, hobj, if_true, hrec] at a
    exact ih cand a
  case case12 =>
    rename_i k v rest hobj ih cand a
    simp only [GenericExtractor.findLdFields, hobj, if_false] at a
    exact ih cand a

theorem jsonLdScript_saleFree (s : Option JSVal) (r : NormalizedPrice)
    (h : AmazonExtractor.jsonLdScript s = some (some r)) : SaleFree r := by
  rcases s with _ | data
  · exact Option.noConfusion h
  · rcases he : AmazonExtractor.jsonLdScriptE data with e | r0
    · simp only [AmazonExtractor.jsonLdScript, he] at h
      exact Option.noConfusion h
    · simp only [AmazonExtractor.jsonLdScript, he] at h
      exact jsonLdScriptE_saleFree data r (h ▸ he)

theorem extractFromJsonData_saleFree (doc : Html) (r : NormalizedPrice)
    (h : AmazonExtractor.extractFromJsonData doc = some r) : SaleFree r := by
  unfold AmazonExtractor.extractFromJsonData at h
  rcases hfs : [doc.amzBuying, doc.amzPriceToPay, doc.amzOffer].findSome? AmazonExtractor.patResult
    with _ | r0
  · rw [hfs] at h
    rcases hfs2 : doc.jsonLdScripts.findSome? AmazonExtractor.jsonLdScript with _ | r1
    · rw [hfs2] at h
      exact Option.noConfusion h
    · rw [hfs2] at h
      have hr : r1 = some r := h
      obtain ⟨s, _, hs⟩ := List.exists_of_findSome?_eq_some hfs2
      rw [hr] at hs
      exact jsonLdScript_saleFree s r hs
  · rw [hfs] at h
    have hr : r0 = some r := h
    obtain ⟨p, _, hp⟩ := List.exists_of_findSome?_eq_some hfs
    rw [hr] at hp
    exact patResult_saleFree p r hp

theorem ptpEl_saleFree (el : Option AEl) (r : NormalizedPrice)
    (h : AmazonExtractor.ptpEl el = some (some r)) : SaleFree r := by
  simp only [AmazonExtractor.ptpEl] at h
  repeat' split at h
  all_goals first
    | exact Option.noConfusion h
    | (simp only [Option.some.injEq] at h
       refine saleFree_of_normalize _ ?_ r h
       rfl)

theorem extractFromPriceToPay_saleFree (doc : Html) (r : NormalizedPrice)
    (h : AmazonExtractor.extractFromPriceToPay doc = some r) : SaleFree r := by
  unfold AmazonExtractor.extractFromPriceToPay at h
  rcases hfs : doc.amzPtpEls.findSome? AmazonExtractor.ptpEl with _ | r0
  · rw [hfs] at h
    exact Option.noConfusion h
  · rw [hfs] at h
    have hr : r0 = some r := h
    obtain ⟨el, _, he⟩ := List.exists_of_findSome?_eq_some hfs
    rw [hr] at he
    exact ptpEl_saleFree el r he

theorem offerEl_saleFree (e : AOffer) (r : NormalizedPrice)
    (h : AmazonExtractor.offerEl e = some (some r)) : SaleFree r := by
  simp only [AmazonExtractor.offerEl] at h
  repeat' split at h
  all_goals first
    | exact Option.noConfusion h
    | (simp only [Option.some.injEq] at h
       refine saleFree_of_normalize _ ?_ r h
       rfl)

theorem extractFromOffers_saleFree (doc : Html) (r : NormalizedPrice)
    (h : AmazonExtractor.extractFromOffers doc = some r) : SaleFree r := by
  unfold AmazonExtractor.extractFromOffers at h
  rcases hfs : doc.amzOfferEls.findSome? (fun elems => elems.findSome? AmazonExtractor.offerEl)
    with _ | r0
  · rw [hfs] at h
    exact Option.noConfusion h
  · rw [hfs] at h
    have hr : r0 = some r := h
    obtain ⟨elems, _, he⟩ := List.exists_of_findSome?_eq_some hfs
    rw [hr] at he
    obtain ⟨e, _, he2⟩ := List.exists_of_findSome?_eq_some he
    exact offerEl_saleFree e r he2

theorem extractFromCorePrice_saleFree (doc : Html) (r : NormalizedPrice)
    (h : AmazonExtractor.extractFromCorePrice doc = some r) : SaleFree r := by
  simp only [AmazonExtractor.extractFromCorePrice] at h
  repeat' split at h
  all_goals first
    | exact Option.noConfusion h
    | (refine saleFree_of_normalize _ ?_ r h
       rfl)

theorem amazonExtract_saleFree (doc : Html) (r : NormalizedPrice)
    (h : AmazonExtractor.extract doc = some r) : SaleFree r := by
  unfold AmazonExtractor.extract at h
  rcases h1 : AmazonExtractor.extractFromJsonData doc with _ | r1
  · rw [h1] at h
    rcases h2 : AmazonExtractor.extractFromPriceToPay doc with _ | r2
    · rw [h2] at h
      rcases h3 : AmazonExtractor.extractFromOffers doc with _ | r3
      · rw [h3] at h
        exact extractFromCorePrice_saleFree doc r h
      · rw [h3] at h
        have : r3 = r := by exact Option.some.inj h
        exact this ▸ extractFromOffers_saleFree doc r3 h3
    · rw [h2] at h
      have : r2 = r := Option.some.inj h
      exact this ▸ extractFromPriceToPay_saleFree doc r2 h2
  · rw [h1] at h
    have : r1 = r := Option.some.inj h
    exact this ▸ extractFromJsonData_saleFree doc r1 h1

theorem patProbe_saleFree (p : Option (Option JSVal)) (r : NormalizedPrice)
    (h : WalmartExtractor.patProbe p = some r) : SaleFree r := by
  rcases p with _ | p2
  · exact Option.noConfusion h
  rcases p2 with _ | j
  · exact Option.noConfusion h
  rcases hw : WalmartExtractor.findPriceInState j with e | r0
  · simp only [WalmartExtractor.patProbe, hw] at h
    exact Option.noConfusion h
  · rcases r0 with _ | r1
    · simp only [WalmartExtractor.patProbe, hw] at h
      exact Option.noConfusion h
    · simp only [WalmartExtractor.patProbe, hw, Option.some.injEq] at h
      exact h ▸ wFind_saleFree j r1 hw

theorem extractFromJsonState_saleFree (doc : Html) (r : NormalizedPrice)
    (h : WalmartExtractor.extractFromJsonState doc = some r) : SaleFree r := by
  unfold WalmartExtractor.extractFromJsonState at h
  rcases hfs : [doc.wmHtml.state, doc.wmHtml.product, doc.wmHtml.pricing].findSome?
      WalmartExtractor.patProbe with _ | r0
  · rw [hfs] at h
    have hscripts :
        doc.wmScripts.findSome? (fun sc =>
          match sc with
          | none => none
          | some pats =>
              [pats.state, pats.product, pats.pricing].findSome? WalmartExtractor.patProbe) =
          some r := h
    obtain ⟨sc, _, hsc⟩ := List.exists_of_findSome?_eq_some hscripts
    rcases sc with _ | pats
    · exact Option.noConfusion hsc
    · obtain ⟨p, _, hp⟩ := List.exists_of_findSome?_eq_some hsc
      exact patProbe_saleFree p r hp
  · rw [hfs] at h
    have hr : r0 = r := Option.some.inj h
    obtain ⟨p, _, hp⟩ := List.exists_of_findSome?_eq_some hfs
    rw [hr] at hp
    exact patProbe_saleFree p r hp

theorem dispEl_saleFree (el : Option WmDisp) (r : NormalizedPrice)
    (h : WalmartExtractor.dispEl el = some (some r)) : SaleFree r := by
  simp only [WalmartExtractor.dispEl] at h
  repeat' split at h
  all_goals first
    | exact Option.noConfusion h
    | (simp only [Option.some.injEq] at h
       refine saleFree_of_normalize _ ?_ r h
       rfl)

theorem extractFromPriceDisplay_saleFree (doc : Html) (r : NormalizedPrice)
    (h : WalmartExtractor.extractFromPriceDisplay doc = some r) : SaleFree r := by
  unfold WalmartExtractor.extractFromPriceDisplay at h
  rcases hfs : doc.wmDisplayEls.findSome? WalmartExtractor.dispEl with _ | r0
  · rw [hfs] at h
    exact Option.noConfusion h
  · rw [hfs] at h
    have hr : r0 = some r := h
    obtain ⟨el, _, he⟩ := List.exists_of_findSome?_eq_some hfs
    rw [hr] at he
    exact dispEl_saleFree el r he

theorem extractFromMetaTags_saleFree (doc : Html) (r : NormalizedPrice)
    (h : WalmartExtractor.extractFromMetaTags doc = some r) : SaleFree r := by
  simp only [WalmartExtractor.extractFromMetaTags] at h
  repeat' split at h
  all_goals first
    | exact Option.noConfusion h
    | (refine saleFree_of_normalize _ ?_ r h
       rfl)

theorem walmartExtract_saleFree (doc : Html) (r : NormalizedPrice)
    (h : WalmartExtractor.extract doc = some r) : SaleFree r := by
  unfold WalmartExtractor.extract at h
  rcases h1 : WalmartExtractor.extractFromJsonState doc with _ | r1
  · rw [h1] at h
    rcases h2 : WalmartExtractor.extractFromPriceDisplay doc with _ | r2
    · rw [h2] at h
      exact extractFromMetaTags_saleFree doc r h
    · rw [h2] at h
      have : r2 = r := Option.some.inj h
      exact this ▸ extractFromPriceDisplay_saleFree doc r2 h2
  · rw [h1] at h
    have : r1 = r := Option.some.inj h
    exact this ▸ extractFromJsonState_saleFree doc r1 h1

theorem gJsonLdScript_saleFree (s : Option JSVal) (r : NormalizedPrice)
    (h : GenericExtractor.jsonLdScript s = some (some r)) : SaleFree r := by
  rcases s with _ | data
  · exact Option.noConfusion h
  · rcases hg : GenericExtractor.findPriceInJsonLd data with _ | cand
    · simp only [GenericExtractor.jsonLdScript, hg] at h
      exact Option.noConfusion h
    · simp only [GenericExtractor.jsonLdScript, hg, Option.some.injEq] at h
      exact saleFree_of_normalize cand (gFind_cand data cand hg) r h

theorem extractFromJsonLd_saleFree (doc : Html) (r : NormalizedPrice)
    (h : GenericExtractor.extractFromJsonLd doc = some r) : SaleFree r := by
  unfold GenericExtractor.extractFromJsonLd at h
  rcases hfs : doc.jsonLdScripts.findSome? GenericExtractor.jsonLdScript with _ | r0
  · rw [hfs] at h
    exact Option.noConfusion h
  · rw [hfs] at h
    have hr : r0 = some r := h
    obtain ⟨s, _, hs⟩ := List.exists_of_findSome?_eq_some hfs
    rw [hr] at hs
    exact gJsonLdScript_saleFree s r hs

theorem extractFromOpenGraph_saleFree (doc : Html) (r : NormalizedPrice)
    (h : GenericExtractor.extractFromOpenGraph doc = some r) : SaleFree r := by
  simp only [GenericExtractor.extractFromOpenGraph] at h
  repeat' split at h
  all_goals first
    | exact Option.noConfusion h
    | (refine saleFree_of_normalize _ ?_ r h
       rfl)

theorem cssEl_saleFree (el : Option GElem) (r : NormalizedPrice)
    (h : GenericExtractor.cssEl el = some (some r)) : SaleFree r := by
  simp only [GenericExtractor.cssEl] at h
  repeat' split at h
  all_goals first
    | exact Option.noConfusion h
    | (simp only [Option.some.injEq] at h
       refine saleFree_of_normalize _ ?_ r h
       rfl)

theorem extractFromCommonSelectors_saleFree (doc : Html) (r : NormalizedPrice)
    (h : GenericExtractor.extractFromCommonSelectors doc = some r) : SaleFree r := by
  unfold GenericExtractor.extractFromCommonSelectors at h
  rcases hfs : doc.gEls.findSome? GenericExtractor.cssEl with _ | r0
  · rw [hfs] at h
    exact Option.noConfusion h
  · rw [hfs] at h
    have hr : r0 = some r := h
    obtain ⟨el, _, he⟩ := List.exists_of_findSome?_eq_some hfs
    rw [hr] at he
    exact cssEl_saleFree el r he

theorem genericExtract_saleFree (doc : Html) (r : NormalizedPrice)
    (h : GenericExtractor.extract doc = some r) : SaleFree r := by
  unfold GenericExtractor.extract at h
  rcases h1 : GenericExtractor.extractFromJsonLd doc with _ | r1
  · rw [h1] at h
    rcases h2 : GenericExtractor.extractFromOpenGraph doc with _ | r2
    · rw [h2] at h
      exact extractFromCommonSelectors_saleFree doc r h
    · rw [h2] at h
      have : r2 = r := Option.some.inj h
      exact this ▸ extractFromOpenGraph_saleFree doc r2 h2
  · rw [h1] at h
    have : r1 = r := Option.some.inj h
    exact this ▸ extractFromJsonLd_saleFree doc r1 h1

/-! ### Claim C5 -/

/-- C5: on every document, every record any of the three strategies
returns has `isOnSale = false` and no `salePrice`: no extraction method of
any strategy ever supplies a `salePrice` field to the normalizer (list
prices travel only as `listPrice`). -/
theorem c5_theorem (doc : Html) (r : NormalizedPrice)
    (h : AmazonExtractor.extract doc = some r ∨ WalmartExtractor.extract doc = some r ∨
      GenericExtractor.extract doc = some r) :
    r.isOnSale = false ∧ r.salePrice = none := by
  rcases h with h | h | h
  · exact amazonExtract_saleFree doc r h
  · exact walmartExtract_saleFree doc r h
  · exact genericExtract_saleFree doc r h

/-- Instantiation of C5 on the record the Amazon strategy extracts from
the Amazon-marker document. -/
theorem c5_witness :
    AmazonExtractor.extract amzOnlyDoc = some amzOnlyRec ∧
      amzOnlyRec.isOnSale = false ∧ amzOnlyRec.salePrice = none :=
  ⟨rfl, c5_theorem amzOnlyDoc amzOnlyRec (Or.inl rfl)⟩

/-! ### Lemmas for claim C10: the searches against the spec's description -/

theorem specNodes_prim (kc : JSVal → Bool) (v : JSVal) (h : typeofIsObject v = false) :
    specNodes kc v = [] := by
  cases v <;> simp_all [typeofIsObject, specNodes]

theorem gchar (j : JSVal) :
    GenericExtractor.findPriceInJsonLd j = ((specNodes gKeyCheck j).head?).map gCandOf := by
  induction j using GenericExtractor.findPriceInJsonLd.induct
    (motive_2 := fun xs =>
      GenericExtractor.findLdElems xs = ((specNodesArr gKeyCheck xs).head?).map gCandOf)
    (motive_3 := fun fs =>
      GenericExtractor.findLdFields fs = ((specNodesObj gKeyCheck fs).head?).map gCandOf)
  case case1 =>
    rename_i fs offers0 op0 hkc
    simp only [GenericExtractor.findPriceInJsonLd, hkc, if_true, specNodes, gKeyCheck,
      List.head?, Option.map, gCandOf]
  case case2 =>
    rename_i fs offers0 op0 hkc ih
    have hc : (!isUndef (jsGet fs "price") ||
        !isUndef (optChain (jsGet fs "offers") "price")) = false := by
      simpa using hkc
    simp only [GenericExtractor.findPriceInJsonLd, specNodes, gKeyCheck, hc, if_false]
    exact ih
  case case3 =>
    rename_i xs ih
    simp only [GenericExtractor.findPriceInJsonLd, specNodes, gKeyCheck, if_false]
    exact ih
  case case4 =>
    rename_i t hobj harr
    cases t
    case obj fs => exact (hobj fs rfl).elim
    case arr xs => exact (harr xs rfl).elim
    all_goals rfl
  case case5 => rfl
  case case6 =>
    rename_i hd tl hobj r1 hrec ih
    have h2 : Option.map gCandOf (specNodes gKeyCheck hd).head? = some r1 := ih ▸ hrec
    simp only [GenericExtractor.findLdElems, hobj, if_true, hrec, specNodesArr,
      List.head?_append]
    rcases hsn : (specNodes gKeyCheck hd).head? with _ | n
    · rw [hsn] at h2
      exact Option.noConfusion h2
    · rw [hsn] at h2
      simp only [Option.or_some]
      exact h2.symm
  case case7 =>
    rename_i hd tl hobj hrec ihhd ihtl
    have h2 : Option.map gCandOf (specNodes gKeyCheck hd).head? = none := ihhd ▸ hrec
    have hsn : (specNodes gKeyCheck hd).head? = none := Option.map_eq_none'.mp h2
    simp only [GenericExtractor.findLdElems, hobj, if_true, hrec, specNodesArr,
      List.head?_append, hsn, Option.none_or]
    exact ihtl
  case case8 =>
    rename_i hd tl hobj ihtl
    have h0 : typeofIsObject hd = false := by simpa using hobj
    simp only [GenericExtractor.findLdElems, h0, if_false, specNodesArr,
      specNodes_prim gKeyCheck hd h0, List.nil_append]
    exact ihtl
  case case9 => rfl
  case case10 =>
    rename_i k v rest hobj r1 hrec ih
    have h2 : Option.map gCandOf (specNodes gKeyCheck v).head? = some r1 := ih ▸ hrec
    simp only [GenericExtractor.findLdFields, hobj, if_true, hrec, specNodesObj,
      List.head?_append]
    rcases hsn : (specNodes gKeyCheck v).head? with _ | n
    · rw [hsn] at h2
      exact Option.noConfusion h2
    · rw [hsn] at h2
      simp only [Option.or_some]
      exact h2.symm
  case case11 =>
    rename_i k v rest hobj hrec ihv ihrest
    have h2 : Option.map gCandOf (specNodes gKeyCheck v).head? = none := ihv ▸ hrec
    have hsn : (specNodes gKeyCheck v).head? = none := Option.map_eq_none'.mp h2
    simp only [GenericExtractor.findLdFields, hobj, if_true, hrec, specNodesObj,
      List.head?_append, hsn, Option.none_or]
    exact ihrest
  case case12 =>
    rename_i k v rest hobj ihrest
    have h0 : typeofIsObject v = false := by simpa using hobj
    simp only [GenericExtractor.findLdFields, h0, if_false, specNodesObj,
      specNodes_prim gKeyCheck v h0, List.nil_append]
    exact ihrest

theorem wPriceStep_eq (fs : JObj) (hp0 : isNull (jsGet fs "price") = false) :
    WalmartExtractor.wPriceStep fs =
      .ok (if wPriceMatch fs then some (wNodeRes (.obj fs)) else none) := by
  by_cases hu : isUndef (jsGet fs "price") = true
  · simp [WalmartExtractor.wPriceStep, wPriceMatch, hu]
  · simp only [Bool.not_eq_true] at hu
    by_cases ht : truthy (wPriceResolved fs) = true
    · have ht2 : truthy (if typeofIsObject (jsGet fs "price") = true then
          jsOr (optChain (propTotal (jsGet fs "price") "current") "price")
            (propTotal (jsGet fs "price") "price")
          else jsGet fs "price") = true := by
        simpa [wPriceResolved] using ht
      have hm : wPriceMatch fs = true := by simp [wPriceMatch, hu, ht]
      simp [WalmartExtractor.wPriceStep, wNodeRes, wPriceResolved, hu, hp0, ht2, hm]
    · simp only [Bool.not_eq_true] at ht
      have ht2 : truthy (if typeofIsObject (jsGet fs "price") = true then
          jsOr (optChain (propTotal (jsGet fs "price") "current") "price")
            (propTotal (jsGet fs "price") "price")
          else jsGet fs "price") = false := by
        simpa [wPriceResolved] using ht
      have hm : wPriceMatch fs = false := by simp [wPriceMatch, ht]
      simp [WalmartExtractor.wPriceStep, hu, hp0, ht2, hm]

theorem wPricingStep_eq (fs : JObj) (hm : wPriceMatch fs = false) :
    WalmartExtractor.wPricingStep fs =
      if wPricingMatch fs then some (wNodeRes (.obj fs)) else none := by
  by_cases hpr : truthy (jsGet fs "pricing") = true
  · by_cases ht : truthy (jsOr (propTotal (jsGet fs "pricing") "price")
        (propTotal (jsGet fs "pricing") "currentPrice")) = true
    · simp [WalmartExtractor.wPricingStep, wPricingMatch, wNodeRes, hm, hpr, ht]
    · simp only [Bool.not_eq_true] at ht
      simp [WalmartExtractor.wPricingStep, wPricingMatch, hpr, ht]
  · simp only [Bool.not_eq_true] at hpr
    simp [WalmartExtractor.wPricingStep, wPricingMatch, hpr]

theorem findSome?_single (f : JSVal → Option NormalizedPrice) (j : JSVal) :
    List.findSome? f [j] = f j := by
  rcases h : f j with _ | r <;> simp [List.findSome?_cons, h]

theorem wchar (j : JSVal) :
    noNullPrice j = true →
      WalmartExtractor.findPriceInState j =
        .ok (List.findSome? wNodeRes (specNodes wKeyCheck j)) := by
  induction j using WalmartExtractor.findPriceInState.induct
    (motive_2 := fun xs => noNullPriceArr xs = true →
      WalmartExtractor.findInElems xs =
        .ok (List.findSome? wNodeRes (specNodesArr wKeyCheck xs)))
    (motive_3 := fun fs => noNullPriceObj fs = true →
      WalmartExtractor.findInFields fs =
        .ok (List.findSome? wNodeRes (specNodesObj wKeyCheck fs)))
  case case1 =>
    intro hn
    rename_i fs e hps
    simp only [noNullPrice, Bool.and_eq_true] at hn
    have hp0 : isNull (jsGet fs "price") = false := by simpa using hn.1
    have heq := wPriceStep_eq fs hp0
    rw [hps] at heq
    exact Except.noConfusion heq
  case case2 =>
    intro hn
    rename_i fs r0 hps
    simp only [noNullPrice, Bool.and_eq_true] at hn
    have hp0 : isNull (jsGet fs "price") = false := by simpa using hn.1
    have heq := wPriceStep_eq fs hp0
    rw [hps] at heq
    have h2 : (if wPriceMatch fs then some (wNodeRes (.obj fs)) else none) = some r0 :=
      (Except.ok.inj heq).symm
    by_cases hm : wPriceMatch fs = true
    · simp only [hm, if_true] at h2
      have hr : wNodeRes (.obj fs) = r0 := Option.some.inj h2
      have hkc : wKeyCheck (.obj fs) = true := by simp [wKeyCheck, hm]
      simp only [WalmartExtractor.findPriceInState, hps, specNodes, hkc, if_true,
        findSome?_single, hr]
    · simp only [Bool.not_eq_true] at hm
      simp only [hm, if_false] at h2
      exact Option.noConfusion h2
  case case3 =>
    intro hn
    rename_i fs hps r0 hqs
    simp only [noNullPrice, Bool.and_eq_true] at hn
    have hp0 : isNull (jsGet fs "price") = false := by simpa using hn.1
    have heq := wPriceStep_eq fs hp0
    rw [hps] at heq
    have h2 : (if wPriceMatch fs then some (wNodeRes (.obj fs)) else none) = none :=
      (Except.ok.inj heq).symm
    have hm : wPriceMatch fs = false := by
      by_cases hmm : wPriceMatch fs = true
      · simp only [hmm, if_true] at h2
        exact Option.noConfusion h2
      · simpa using hmm
    have heq2 := wPricingStep_eq fs hm
    rw [hqs] at heq2
    by_cases hpm : wPricingMatch fs = true
    · simp only [hpm, if_true] at heq2
      have hr : r0 = wNodeRes (.obj fs) := Option.some.inj heq2
      have hkc : wKeyCheck (.obj fs) = true := by simp [wKeyCheck, hpm]
      simp only [WalmartExtractor.findPriceInState, hps, hqs, specNodes, hkc, if_true,
        findSome?_single, hr]
    · simp only [Bool.not_eq_true] at hpm
      simp only [hpm, if_false] at heq2
      exact Option.noConfusion heq2
  case case4 =>
    intro hn
    rename_i fs hps hqs ih
    simp only [noNullPrice, Bool.and_eq_true] at hn
    have hp0 : isNull (jsGet fs "price") = false := by simpa using hn.1
    have heq := wPriceStep_eq fs hp0
    rw [hps] at heq
    have h2 : (if wPriceMatch fs then some (wNodeRes (.obj fs)) else none) = none :=
      (Except.ok.inj heq).symm
    have hm : wPriceMatch fs = false := by
      by_cases hmm : wPriceMatch fs = true
      · simp only [hmm, if_true] at h2
        exact Option.noConfusion h2
      · simpa using hmm
    have heq2 := wPricingStep_eq fs hm
    rw [hqs] at heq2
    have hpm : wPricingMatch fs = false := by
      by_cases hpp : wPricingMatch fs = true
      · simp only [hpp, if_true] at heq2
        exact Option.noConfusion heq2
      · simpa using hpp
    have hkc : wKeyCheck (.obj fs) = false := by simp [wKeyCheck, hm, hpm]
    simp only [WalmartExtractor.findPriceInState, hps, hqs, specNodes, hkc, if_false]
    exact ih hn.2
  case case5 =>
    intro hn
    rename_i xs ih
    simp only [noNullPrice] at hn
    simp only [WalmartExtractor.findPriceInState, specNodes, wKeyCheck, if_false]
    exact ih hn
  case case6 =>
    intro hn
    rename_i t hobj harr
    cases t
    case obj fs => exact (hobj fs rfl).elim
    case arr xs => exact (harr xs rfl).elim
    all_goals rfl
  case case7 =>
    rfl
  case case8 =>
    rename_i hd tl hobj e hrec ih hn
    simp only [noNullPriceArr, Bool.and_eq_true] at hn
    have := ih hn.1
    rw [hrec] at this
    exact Except.noConfusion this
  case case9 =>
    rename_i hd tl hobj r1 hrec ih hn
    simp only [noNullPriceArr, Bool.and_eq_true] at hn
    have hh := ih hn.1
    rw [hrec] at hh
    have h2 : List.findSome? wNodeRes (specNodes wKeyCheck hd) = some r1 :=
      (Except.ok.inj hh).symm
    simp only [WalmartExtractor.findInElems, hobj, if_true, hrec, specNodesArr,
      List.findSome?_append, h2, Option.or_some]
  case case10 =>
    rename_i hd tl hobj hrec ihhd ihtl hn
    simp only [noNullPriceArr, Bool.and_eq_true] at hn
    have hh := ihhd hn.1
    rw [hrec] at hh
    have h2 : List.findSome? wNodeRes (specNodes wKeyCheck hd) = none :=
      (Except.ok.inj hh).symm
    simp only [WalmartExtractor.findInElems, hobj, if_true, hrec, specNodesArr,
      List.findSome?_append, h2, Option.none_or]
    exact ihtl hn.2
  case case11 =>
    rename_i hd tl hobj ihtl hn
    simp only [noNullPriceArr, Bool.and_eq_true] at hn
    have h0 : typeofIsObject hd = false := by simpa using hobj
    simp only [WalmartExtractor.findInElems, h0, if_false, specNodesArr,
      specNodes_prim wKeyCheck hd h0, List.nil_append]
    exact ihtl hn.2
  case case12 =>
    rfl
  case case13 =>
    rename_i k v rest hobj e hrec ih hn
    simp only [noNullPriceObj, Bool.and_eq_true] at hn
    have := ih hn.1
    rw [hrec] at this
    exact Except.noConfusion this
  case case14 =>
    rename_i k v rest hobj r1 hrec ih hn
    simp only [noNullPriceObj, Bool.and_eq_true] at hn
    have hh := ih hn.1
    rw [hrec] at hh
    have h2 : List.findSome? wNodeRes (specNodes wKeyCheck v) = some r1 :=
      (Except.ok.inj hh).symm
    simp only [WalmartExtractor.findInFields, hobj, if_true, hrec, specNodesObj,
      List.findSome?_append, h2, Option.or_some]
  case case15 =>
    rename_i k v rest hobj hrec ihv ihrest hn
    simp only [noNullPriceObj, Bool.and_eq_true] at hn
    have hh := ihv hn.1
    rw [hrec] at hh
    have h2 : List.findSome? wNodeRes (specNodes wKeyCheck v) = none :=
      (Except.ok.inj hh).symm
    simp only [WalmartExtractor.findInFields, hobj, if_true, hrec, specNodesObj,
      List.findSome?_append, h2, Option.none_or]
    exact ihrest hn.2
  case case16 =>
    rename_i k v rest hobj ihrest hn
    simp only [noNullPriceObj, Bool.and_eq_true] at hn
    have h0 : typeofIsObject v = false := by simpa using hobj
    simp only [WalmartExtractor.findInFields, h0, if_false, specNodesObj,
      specNodes_prim wKeyCheck v h0, List.nil_append]
    exact ihrest hn.2

/-! ### Claim C10 -/

/-- Counterexample to claim C10: on the JSON value
`{"a": {"price": null}, "b": {"price": "5.00"}}` the Walmart state search
throws a TypeError (reading `.current` of null) at the first child instead
of continuing to the later match under `"b"`, which the claimed
first-match traversal would return (the 5.00 record). -/
theorem c10_counterexample :
    WalmartExtractor.findPriceInState c10cex = .error () ∧
    List.findSome? wNodeRes (specNodes wKeyCheck c10cex) =
      some ⟨mkRat 5 1, some (mkRat 5 1), none, .str "USD", false⟩ :=
  ⟨rfl, rfl⟩

/-- Claim C10 (corrected): the generic JSON-LD search always equals the
first match, under the deterministic left-to-right property order, over
the spec's node list (current node checked before its children, non-object
non-array leaves dead ends); the Walmart state search equals that same
first-match traversal only on values with no null `price` property —
on others it can throw before reaching a later match. -/
theorem c10_theorem :
    (∀ j : JSVal, GenericExtractor.findPriceInJsonLd j =
        ((specNodes gKeyCheck j).head?).map gCandOf) ∧
    (∀ j : JSVal, noNullPrice j = true →
        WalmartExtractor.findPriceInState j =
          .ok (List.findSome? wNodeRes (specNodes wKeyCheck j))) :=
  ⟨gchar, wchar⟩

/-- Witness for C10 at `{"a": {"x": 1}, "b": {"price": "5.00"}}`,
a null-price-free value. -/
theorem c10_witness :
    noNullPrice c10ok = true ∧
    WalmartExtractor.findPriceInState c10ok =
      .ok (List.findSome? wNodeRes (specNodes wKeyCheck c10ok)) :=
  ⟨rfl, c10_theorem.2 c10ok rfl⟩

/-! ### Claim C7 -/

/-- Claim C7 (confirmed): `parsePrice` returns NONE on every non-string
input, on the empty string, on any string whose cleaned numeral fails to
parse (NaN), and on any string whose cleaned numeral parses to a value at
most zero; every successful result is the parsed value rounded to 2
decimal places (a rational with an integer numerator over 100); and the
spec's four examples hold: `$29.99 ↦ 29.99`, `£15.00 ↦ 15.00`,
`invalid ↦ NONE`, `"" ↦ NONE`. -/
theorem c7_theorem :
    (∀ v : JSVal, v.isString = false → parsePrice v = none) ∧
    parsePrice (.str "") = none ∧
    (∀ s : String, parseFloatPrefix (cleanPrice s) = none → parsePrice (.str s) = none) ∧
    (∀ s : String, ∀ v : ℚ, parseFloatPrefix (cleanPrice s) = some v → v ≤ 0 →
        parsePrice (.str s) = none) ∧
    (∀ s : String, ∀ q : ℚ, parsePrice (.str s) = some q →
        ∃ v : ℚ, parseFloatPrefix (cleanPrice s) = some v ∧ 0 < v ∧ q = round2 v ∧
          ∃ m : ℤ, q = mkRat m 100) ∧
    parsePrice (.str "$29.99") = some (mkRat 2999 100) ∧
    parsePrice (.str "£15.00") = some (mkRat 15 1) ∧
    parsePrice (.str "invalid") = none := by
  refine ⟨parsePrice_non_string, rfl, ?_, ?_, ?_, rfl, rfl, rfl⟩
  · intro s hfp
    simp only [parsePrice, parsePriceStr]
    by_cases hs : s = ""
    · simp [hs]
    · simp [hs, hfp]
  · intro s v hfp hle
    simp only [parsePrice, parsePriceStr]
    by_cases hs : s = ""
    · simp [hs]
    · simp [hs, hfp, hle]
  · intro s q h
    obtain ⟨v, hfp, hv, hq⟩ := parsePriceStr_shape s q h
    exact ⟨v, hfp, hv, hq, ⟨mathRound100 v, by rw [hq]; rfl⟩⟩

/-- Witness for C7: the non-string branch at the number 5 and the success
shape at the string `$29.99`. -/
theorem c7_witness :
    JSVal.isString (.num 5) = false ∧ parsePrice (.num 5) = none ∧
    parsePrice (.str "$29.99") = some (mkRat 2999 100) ∧
    (∃ v : ℚ, parseFloatPrefix (cleanPrice "$29.99") = some v ∧ 0 < v ∧
      mkRat 2999 100 = round2 v ∧ ∃ m : ℤ, mkRat 2999 100 = mkRat m 100) :=
  ⟨rfl, c7_theorem.1 (.num 5) rfl, rfl,
    c7_theorem.2.2.2.2.1 "$29.99" (mkRat 2999 100) rfl⟩

/-! ### Claim C8: digit rendering, parsing roundtrip -/


theorem isDig_digitChar (n : ℕ) : isDig (digitChar n) = true := by
  match n with
  | 0 | 1 | 2 | 3 | 4 | 5 | 6 | 7 | 8 => rfl
  | n + 9 => rfl

theorem digitVal_digitChar (n : ℕ) (h : n < 10) : digitVal (digitChar n) = n := by
  match n with
  | 0 | 1 | 2 | 3 | 4 | 5 | 6 | 7 | 8 | 9 => rfl

theorem natToDigitsF_all_dig (fuel n : ℕ) (c : Char)
    (h : c ∈ natToDigitsF fuel n) : isDig c = true := by
  induction fuel generalizing n with
  | zero => simp [natToDigitsF] at h
  | succ fuel ih =>
      simp only [natToDigitsF] at h
      by_cases hn : n < 10
      · simp [hn] at h
        subst h
        exact isDig_digitChar n
      · simp [hn, List.mem_append] at h
        rcases h with h | h
        · exact ih (n / 10) h
        · subst h
          exact isDig_digitChar (n % 10)

theorem natToDigitsF_ne_nil (fuel n : ℕ) : natToDigitsF (fuel + 1) n ≠ [] := by
  simp only [natToDigitsF]
  by_cases hn : n < 10
  · simp [hn]
  · simp [hn]

theorem readDigits_append (xs : List Char) (c : Char) :
    readDigits (xs ++ [c]) = 10 * readDigits xs + digitVal c := by
  simp [readDigits, List.foldl_append]

theorem readDigits_natToDigitsF (fuel n : ℕ) (h : n < fuel) :
    readDigits (natToDigitsF fuel n) = n := by
  induction fuel generalizing n with
  | zero => omega
  | succ fuel ih =>
      simp only [natToDigitsF]
      by_cases hn : n < 10
      · simp only [hn, if_true]
        simpa [readDigits] using digitVal_digitChar n hn
      · simp only [hn, if_false]
        rw [readDigits_append, ih (n / 10) (by omega), digitVal_digitChar (n % 10) (by omega)]
        omega

theorem readDigits_natToDigits (n : ℕ) : readDigits (natToDigits n) = n :=
  readDigits_natToDigitsF (n + 1) n (by omega)

theorem natToDigitsF_len_le (fuel : ℕ) : ∀ n k : ℕ, n < fuel → n < 10 ^ k → 0 < k →
    (natToDigitsF fuel n).length ≤ k := by
  induction fuel with
  | zero => intro n k h; omega
  | succ fuel ih =>
      intro n k h hk hk0
      simp only [natToDigitsF]
      by_cases hn : n < 10
      · simp [hn]; omega
      · simp only [hn, if_false, List.length_append, List.length_cons, List.length_nil]
        have hk2 : 2 ≤ k := by
          by_contra hc
          have hk1 : k = 1 := by omega
          subst hk1
          simp at hk
          omega
        have h1 : n / 10 < 10 ^ (k - 1) := by
          rw [Nat.div_lt_iff_lt_mul (by omega)]
          calc n < 10 ^ k := hk
          _ = 10 ^ (k - 1) * 10 := by
            rw [← pow_succ]
            congr 1
            omega
        have h2 := ih (n / 10) (k - 1) (by omega) h1 (by omega)
        omega

theorem natToDigits_len_le (n k : ℕ) (h : n < 10 ^ k) (hk : 0 < k) :
    (natToDigits n).length ≤ k :=
  natToDigitsF_len_le (n + 1) n k (by omega) h hk

theorem readDigits_padZeros (k : ℕ) (ds : List Char) :
    readDigits (padZeros k ds) = readDigits ds := by
  unfold padZeros
  generalize k - ds.length = j
  induction j with
  | zero => rfl
  | succ j ih =>
      rw [List.replicate_succ]
      simpa [readDigits] using ih

theorem padZeros_len (k : ℕ) (ds : List Char) (h : ds.length ≤ k) :
    (padZeros k ds).length = k := by
  simp [padZeros]
  omega

theorem padZeros_all_dig (k : ℕ) (ds : List Char) (hds : ∀ c ∈ ds, isDig c = true) :
    ∀ c ∈ padZeros k ds, isDig c = true := by
  intro c hc
  simp only [padZeros, List.mem_append, List.mem_replicate] at hc
  rcases hc with ⟨_, rfl⟩ | hc
  · rfl
  · exact hds c hc

theorem isDig_not_glyph (c : Char) (h : isDig c = true) : isGlyph c = false := by
  simp only [isDig, Bool.and_eq_true, decide_eq_true_eq] at h
  simp only [isGlyph, Bool.or_eq_false_iff, decide_eq_false_iff_not]
  refine ⟨⟨⟨⟨?_, ?_⟩, ?_⟩, ?_⟩, ?_⟩ <;> (rintro rfl; exact absurd h (by decide))

theorem isDig_not_ws (c : Char) (h : isDig c = true) : isWs c = false := by
  simp only [isDig, Bool.and_eq_true, decide_eq_true_eq] at h
  simp only [isWs, Bool.or_eq_false_iff, decide_eq_false_iff_not]
  refine ⟨⟨⟨?_, ?_⟩, ?_⟩, ?_⟩ <;> (rintro rfl; exact absurd h (by decide))

theorem isDig_ne_comma (c : Char) (h : isDig c = true) : c ≠ ',' := by
  simp only [isDig, Bool.and_eq_true, decide_eq_true_eq] at h
  rintro rfl
  exact absurd h (by decide)

theorem isDigDot_not_glyph (c : Char) (h : isDigDot c = true) : isGlyph c = false := by
  simp only [isDigDot, Bool.or_eq_true, decide_eq_true_eq] at h
  rcases h with h | rfl
  · exact isDig_not_glyph c h
  · rfl

theorem isDigDot_not_ws (c : Char) (h : isDigDot c = true) : isWs c = false := by
  simp only [isDigDot, Bool.or_eq_true, decide_eq_true_eq] at h
  rcases h with h | rfl
  · exact isDig_not_ws c h
  · rfl

theorem isDigDot_ne_comma (c : Char) (h : isDigDot c = true) : c ≠ ',' := by
  simp only [isDigDot, Bool.or_eq_true, decide_eq_true_eq] at h
  rcases h with h | rfl
  · exact isDig_ne_comma c h
  · decide

theorem takeWhile_all_append (p : Char → Bool) (xs ys : List Char)
    (h : ∀ c ∈ xs, p c = true) :
    (xs ++ ys).takeWhile p = xs ++ ys.takeWhile p := by
  induction xs with
  | nil => rfl
  | cons c cs ih =>
      simp only [List.cons_append, List.takeWhile_cons, h c (by simp), if_true]
      rw [ih (fun d hd => h d (by simp [hd]))]

theorem dropWhile_all_append (p : Char → Bool) (xs ys : List Char)
    (h : ∀ c ∈ xs, p c = true) :
    (xs ++ ys).dropWhile p = ys.dropWhile p := by
  induction xs with
  | nil => rfl
  | cons c cs ih =>
      simp only [List.cons_append, List.dropWhile_cons, h c (by simp), if_true]
      exact ih (fun d hd => h d (by simp [hd]))

theorem dropWhile_all_nil (p : Char → Bool) (xs : List Char)
    (h : ∀ c ∈ xs, p c = true) : xs.dropWhile p = [] := by
  have := dropWhile_all_append p xs [] h
  simpa using this

theorem takeWhile_all (p : Char → Bool) (xs : List Char)
    (h : ∀ c ∈ xs, p c = true) : xs.takeWhile p = xs := by
  have := takeWhile_all_append p xs [] h
  simpa using this

theorem filter_all (p : Char → Bool) (xs : List Char)
    (h : ∀ c ∈ xs, p c = true) : xs.filter p = xs :=
  List.filter_eq_self.mpr h

theorem removeFirstGlyph_id (xs : List Char) (h : ∀ c ∈ xs, isGlyph c = false) :
    removeFirstGlyph xs = xs := by
  induction xs with
  | nil => rfl
  | cons c cs ih =>
      simp only [removeFirstGlyph, h c (by simp), Bool.false_eq_true, if_false]
      rw [ih (fun d hd => h d (by simp [hd]))]

theorem dropWhile_id (p : Char → Bool) (xs : List Char)
    (h : ∀ c ∈ xs, p c = false) : xs.dropWhile p = xs := by
  cases xs with
  | nil => rfl
  | cons c cs => simp [List.dropWhile_cons, h c (by simp)]

theorem trimChars_id (xs : List Char) (h : ∀ c ∈ xs, isWs c = false) :
    trimChars xs = xs := by
  unfold trimChars
  rw [dropWhile_id isWs xs h]
  rw [dropWhile_id isWs xs.reverse (fun c hc => h c (List.mem_reverse.mp hc))]
  exact xs.reverse_reverse

theorem cleanPrice_id (xs : List Char) (h : ∀ c ∈ xs, isDigDot c = true) :
    cleanPrice (String.mk xs) = String.mk xs := by
  simp only [cleanPrice]
  rw [removeFirstGlyph_id xs (fun c hc => isDigDot_not_glyph c (h c hc))]
  rw [filter_all _ xs (fun c hc => by simp [isDigDot_ne_comma c (h c hc)])]
  rw [filter_all _ xs (fun c hc => by simp [isDigDot_not_ws c (h c hc)])]
  rw [trimChars_id xs (fun c hc => isDigDot_not_ws c (h c hc))]
  rw [filter_all isDigDot xs h]

theorem parseFloatPrefix_digits (n : ℕ) :
    parseFloatPrefix (natToStr n) = some (mkRat n 1) := by
  have hall : ∀ c ∈ natToDigits n, isDig c = true :=
    fun c hc => natToDigitsF_all_dig (n + 1) n c hc
  have hne : natToDigits n ≠ [] := natToDigitsF_ne_nil n n
  simp only [parseFloatPrefix, natToStr]
  rw [takeWhile_all isDig (natToDigits n) hall, dropWhile_all_nil isDig (natToDigits n) hall]
  simp [List.isEmpty_iff, hne, readDigits_natToDigits]

theorem parseFloatPrefix_dotted (a b k : ℕ) (hk : 0 < k) (hb : b < 10 ^ k) :
    parseFloatPrefix (String.mk (natToDigits a ++ '.' :: padZeros k (natToDigits b))) =
      some (mkRat (a * 10 ^ k + b) (10 ^ k)) := by
  have halla : ∀ c ∈ natToDigits a, isDig c = true :=
    fun c hc => natToDigitsF_all_dig (a + 1) a c hc
  have hallb : ∀ c ∈ padZeros k (natToDigits b), isDig c = true :=
    padZeros_all_dig k (natToDigits b) (fun c hc => natToDigitsF_all_dig (b + 1) b c hc)
  have hlen : (padZeros k (natToDigits b)).length = k :=
    padZeros_len k (natToDigits b) (natToDigits_len_le b k hb hk)
  simp only [parseFloatPrefix]
  rw [takeWhile_all_append isDig _ _ halla, dropWhile_all_append isDig _ _ halla]
  rw [List.takeWhile_cons, List.dropWhile_cons]
  simp only [show isDig '.' = false from rfl, Bool.false_eq_true, if_false]
  simp only [List.append_nil]
  rw [takeWhile_all isDig _ hallb]
  have hnea : natToDigits a ≠ [] := natToDigitsF_ne_nil a a
  simp [List.isEmpty_iff, hnea, hlen, readDigits_natToDigits, readDigits_padZeros]

theorem round2_fix (q : ℚ) (h : q.den ∣ 100) : round2 q = q := by
  have hden : (0 : ℤ) < (q.den : ℤ) := by exact_mod_cast q.den_pos
  have hdvd : (q.den : ℤ) ∣ 100 * q.num :=
    Dvd.dvd.mul_right (by exact_mod_cast h) q.num
  obtain ⟨t, ht⟩ := hdvd
  have hm : mathRound100 q = t := by
    unfold mathRound100
    have h1 : 200 * q.num + (q.den : ℤ) = (q.den : ℤ) + t * (2 * (q.den : ℤ)) := by
      have : (200 : ℤ) * q.num = 2 * (100 * q.num) := by ring
      rw [this, ht]
      ring
    rw [show (200 * q.num + (q.den : ℤ)).ediv (2 * (q.den : ℤ)) =
      (200 * q.num + (q.den : ℤ)) / (2 * (q.den : ℤ)) from rfl]
    rw [h1, Int.add_mul_ediv_right _ _ (by omega)]
    rw [Int.ediv_eq_zero_of_lt (by omega) (by omega)]
    omega
  rw [show round2 q = mkRat t 100 from by rw [round2, hm]]
  rw [Rat.mkRat_eq_div]
  have hcast : (100 : ℚ) * (q.num : ℚ) = (q.den : ℚ) * (t : ℚ) := by
    exact_mod_cast congrArg (fun z : ℤ => (z : ℚ)) ht
  have hd0 : (q.den : ℚ) ≠ 0 := by
    exact_mod_cast q.den_nz
  have hq : q = (q.num : ℚ) / (q.den : ℚ) := (Rat.num_div_den q).symm
  rw [hq]
  rw [div_eq_div_iff (by norm_num) hd0]
  push_cast
  linarith [hcast]

theorem findK_found (q : ℚ) (k fuel : ℕ) (h : 10 ^ k % q.den = 0) :
    findK q k fuel = some k := by
  cases fuel <;> simp [findK, h]

theorem findK_step (q : ℚ) (k fuel : ℕ) (h : ¬ 10 ^ k % q.den = 0) :
    findK q k (fuel + 1) = findK q (k + 1) fuel := by
  simp [findK, h]

theorem findK_eval (q : ℚ) (h : q.den ∣ 100) :
    ∃ k, findK q 0 30 = some k ∧ 10 ^ k % q.den = 0 := by
  have hpos := q.den_pos
  by_cases h1 : q.den = 1
  · exact ⟨0, findK_found q 0 30 (by simp [h1]), by simp [h1]⟩
  · have h10 : ¬ 10 ^ 0 % q.den = 0 := by
      rw [pow_zero, Nat.mod_eq_of_lt (by omega)]
      omega
    by_cases h2 : q.den ∣ 10
    · have hm1 : 10 ^ 1 % q.den = 0 := by
        rw [pow_one]
        exact Nat.mod_eq_zero_of_dvd h2
      refine ⟨1, ?_, hm1⟩
      rw [show (30 : ℕ) = 29 + 1 from rfl, findK_step q 0 29 h10]
      exact findK_found q 1 29 hm1
    · have hm1 : ¬ 10 ^ 1 % q.den = 0 := by
        rw [pow_one]
        intro hc
        exact h2 (Nat.dvd_iff_mod_eq_zero.mpr hc)
      have hm2 : 10 ^ 2 % q.den = 0 := by
        have : (100 : ℕ) = 10 ^ 2 := by norm_num
        rw [← this]
        exact Nat.mod_eq_zero_of_dvd h
      refine ⟨2, ?_, hm2⟩
      rw [show (30 : ℕ) = 29 + 1 from rfl, findK_step q 0 29 h10]
      rw [show (29 : ℕ) = 28 + 1 from rfl, findK_step q 1 28 hm1]
      exact findK_found q 2 28 hm2

theorem isDigDot_of_isDig (c : Char) (h : isDig c = true) : isDigDot c = true := by
  simp [isDigDot, h]

theorem parsePriceStr_roundtrip (q : ℚ) (hq : 0 < q) (h : q.den ∣ 100) :
    parsePriceStr (jsNumToString q) = some q := by
  have hnum : 0 < q.num := Rat.num_pos.mpr hq
  obtain ⟨k, hfk, hmod⟩ := findK_eval q h
  have hdvd : q.den ∣ 10 ^ k := Nat.dvd_iff_mod_eq_zero.mpr hmod
  rw [jsNumToString, if_neg (not_lt.mpr hq.le), jsNumToStringNN, hfk]
  simp only
  have hvq : ((q.num.toNat * (10 ^ k / q.den) : ℕ) : ℚ) = q * 10 ^ k := by
    have h1 : ((10 ^ k / q.den : ℕ) : ℚ) = (10 ^ k : ℚ) / (q.den : ℚ) := by
      rw [Nat.cast_div hdvd (by exact_mod_cast q.den_nz)]
      push_cast
      rfl
    have h2 : ((q.num.toNat : ℕ) : ℚ) = (q.num : ℚ) := by
      exact_mod_cast congrArg (fun z : ℤ => (z : ℚ)) (Int.toNat_of_nonneg hnum.le)
    have hd0 : (q.den : ℚ) ≠ 0 := by exact_mod_cast q.den_nz
    have hnd : (q.num : ℚ) = q * (q.den : ℚ) := (div_eq_iff hd0).mp (Rat.num_div_den q)
    rw [Nat.cast_mul, h1, h2]
    field_simp
    rw [hnd]
    ring
  set v : ℕ := q.num.toNat * (10 ^ k / q.den) with hv
  by_cases hk : k = 0
  · subst hk
    have hden1 : q.den = 1 := Nat.dvd_one.mp (by simpa using hdvd)
    simp only [if_true]
    have hmk : mkRat (v : ℤ) 1 = q := by
      rw [Rat.mkRat_eq_div]
      push_cast
      rw [show ((v : ℕ) : ℚ) = q * 10 ^ 0 from hvq]
      simp
    have hne : natToStr v ≠ "" := by
      simp only [natToStr]
      intro hc
      exact natToDigitsF_ne_nil v v (congrArg String.data hc)
    rw [parsePriceStr, if_neg hne]
    rw [show natToStr v = String.mk (natToDigits v) from rfl]
    rw [cleanPrice_id (natToDigits v) (fun c hc =>
      (isDigDot_of_isDig c (natToDigitsF_all_dig (v + 1) v c hc)))]
    rw [show String.mk (natToDigits v) = natToStr v from rfl, parseFloatPrefix_digits v]
    simp only [hmk]
    rw [if_neg (not_le.mpr hq), round2_fix q h]
  · simp only [hk, if_false]
    have hb : v % 10 ^ k < 10 ^ k := Nat.mod_lt v (by positivity)
    have hne : String.mk (natToDigits (v / 10 ^ k) ++ '.' :: padZeros k (natToDigits (v % 10 ^ k))) ≠ "" := by
      intro hc
      exact absurd (congrArg String.data hc) (by simp)
    rw [parsePriceStr, if_neg hne]
    rw [cleanPrice_id _ (fun c hc => by
      simp only [List.mem_append, List.mem_cons] at hc
      rcases hc with hc | hc | hc
      · exact isDigDot_of_isDig c (natToDigitsF_all_dig _ _ c hc)
      · subst hc; rfl
      · exact isDigDot_of_isDig c (padZeros_all_dig k _ (fun d hd =>
          natToDigitsF_all_dig _ _ d hd) c hc))]
    rw [parseFloatPrefix_dotted (v / 10 ^ k) (v % 10 ^ k) k (Nat.pos_of_ne_zero hk) hb]
    have hsum : v / 10 ^ k * 10 ^ k + v % 10 ^ k = v := by
      rw [mul_comm]
      exact Nat.div_add_mod v (10 ^ k)
    rw [show ((v / 10 ^ k : ℕ) : ℤ) * 10 ^ k + ((v % 10 ^ k : ℕ) : ℤ) = (v : ℤ) from by
      exact_mod_cast hsum]
    have hmk : mkRat (v : ℤ) (10 ^ k) = q := by
      rw [Rat.mkRat_eq_div]
      push_cast
      rw [hvq]
      have h10 : ((10 : ℚ)) ^ k ≠ 0 := by positivity
      field_simp
    simp only [hmk]
    rw [if_neg (not_le.mpr hq), round2_fix q h]

/-- Counterexample to claim C8: `parsePrice("0.003")` succeeds with the
rounded value 0 (validation precedes rounding), its rendering is the
string `"0"`, and re-parsing that rendering returns NONE (0 is rejected),
so `parse(str(parse(s)))` differs from `parse(s)` on `s = "0.003"`. -/
theorem c8_counterexample :
    parsePrice (.str "0.003") = some 0 ∧
    jsNumToString 0 = "0" ∧
    parsePrice (.str (jsNumToString 0)) = none ∧
    parsePrice (.str (jsNumToString 0)) ≠ parsePrice (.str "0.003") :=
  ⟨rfl, rfl, rfl, by decide⟩

/-- Claim C8 (corrected): idempotence holds for every nonzero result —
if `parsePrice` succeeds on `s` with a value other than 0, parsing the
JavaScript string rendering of that value returns the same value. Only
results that round to exactly 0 break the claimed identity. -/
theorem c8_theorem (s : String) (q : ℚ) (h : parsePrice (.str s) = some q) (hq : q ≠ 0) :
    parsePrice (.str (jsNumToString q)) = some q := by
  have hq0 : 0 ≤ q := parsePrice_nonneg _ q h
  have hqpos : 0 < q := lt_of_le_of_ne hq0 (Ne.symm hq)
  have hden : q.den ∣ 100 := by
    obtain ⟨v, hfp, hv, hqe⟩ := parsePriceStr_shape s q h
    have h2 : ((round2 v).den : ℤ) ∣ 100 := by
      rw [round2, Rat.mkRat_eq_divInt]
      exact Rat.den_dvd _ _
    rw [hqe]
    exact_mod_cast h2
  exact parsePriceStr_roundtrip q hqpos hden

/-- Witness for C8 at the string `$29.99` and its parsed value 29.99. -/
theorem c8_witness :
    parsePrice (.str "$29.99") = some (mkRat 2999 100) ∧ mkRat 2999 100 ≠ 0 ∧
    parsePrice (.str (jsNumToString (mkRat 2999 100))) = some (mkRat 2999 100) :=
  ⟨rfl, by decide, c8_theorem "$29.99" (mkRat 2999 100) rfl (by decide)⟩

end PriceScraper
